import Mathlib

/-!
# Florincoin: proof-of-work retargeting, work scoring and checkpoints

A shallow embedding of `src/pow.cpp`, `src/checkpoints.cpp` and the network
constants of `src/chainparams.cpp`.

* A `uint256` is a natural number below `2 ^ 256`; every operation that can
  leave that range is reduced `% 2 ^ 256` at the place where the C++ truncates.
* `unsigned int` locals are naturals reduced `% 2 ^ 32` where they are computed.
* A `const CBlockIndex*` is the list of the blocks reachable through `pprev`,
  the pointed-to block first; the null pointer is the empty list.
* `assert` failures, the `uint_error` thrown by a 256-bit division by zero and
  an integer remainder by zero are the errors of `PowError`.
-/

namespace Florincoin

/-! ## 256-bit unsigned integers and the compact encoding -/

/-- The modulus of `uint256` arithmetic. -/
def uint256Mod : Nat := 2 ^ 256

/-- Loop of `bits`: halve until nothing is left, at most `fuel` times. -/
def bitsAux : Nat → Nat → Nat
  | 0, _ => 0
  | fuel + 1, n => if n = 0 then 0 else bitsAux fuel (n / 2) + 1

/-- Modelled from the spec: `uint256::bits()` (uint256.h and uint256.cpp are not
part of the sources), the bit-length of the magnitude: the position of the
highest set bit plus one, and zero for zero. A `uint256` has 256 bit positions. -/
def bits (x : Nat) : Nat := bitsAux 256 x

/-- Result of decoding a compact value: the magnitude and the two flags. -/
structure CompactTarget where
  value : Nat
  fNegative : Bool
  fOverflow : Bool
  deriving DecidableEq, Repr

/-- Modelled from the spec: `uint256::SetCompact` (uint256.cpp is not part of the
sources), section 4.1 `decode`. The exponent is the top byte; the mantissa is
the low three bytes, whose top bit is reserved as the sign, so the magnitude is
built from the low 23 bits; it is shifted left by `8 * (exponent - 3)` bits when
the exponent exceeds 3 (the 256-bit shift drops what leaves the word), right by
`8 * (3 - exponent)` bits otherwise. `fNegative` is the sign bit; `fOverflow`
says that the left shift does not fit 256 bits. -/
def SetCompact (nCompact : Nat) : CompactTarget :=
  let nSize := nCompact / 2 ^ 24
  let nWord := nCompact % 2 ^ 23
  { value :=
      if nSize ≤ 3 then nWord / 2 ^ (8 * (3 - nSize))
      else (nWord * 2 ^ (8 * (nSize - 3))) % uint256Mod
    fNegative := decide ((nCompact / 2 ^ 23) % 2 = 1)
    fOverflow := decide (3 < nSize ∧ uint256Mod ≤ nWord * 2 ^ (8 * (nSize - 3))) }

/-- Modelled from the spec: `uint256::GetCompact` (uint256.cpp is not part of the
sources), section 4.1 `encode`: the inverse of `SetCompact` with the minimal
byte length. `nSize` is the byte length of the magnitude, the mantissa its top
three bytes; when the mantissa would occupy the reserved sign bit it is divided
by 256 and the exponent is increased. The exponent goes to the top byte. -/
def GetCompact (x : Nat) : Nat :=
  let nSize := (bits x + 7) / 8
  let nCompact := if nSize ≤ 3 then x * 2 ^ (8 * (3 - nSize)) else x / 2 ^ (8 * (nSize - 3))
  if (nCompact / 2 ^ 23) % 2 = 1 then nCompact / 256 + (nSize + 1) * 2 ^ 24
  else nCompact + nSize * 2 ^ 24

/-! ## Machine integers -/

/-- Conversion of an integer value to `unsigned int` (32 bits). -/
def toUInt32 (z : Int) : Nat := (z % 4294967296).toNat

/-- Conversion of an `unsigned int` to `int` (32 bits, two's complement). -/
def toInt32 (n : Nat) : Int :=
  if n % 4294967296 < 2147483648 then ((n % 4294967296 : Nat) : Int)
  else ((n % 4294967296 : Nat) : Int) - 4294967296

/-! ## Chain parameters (chainparams.cpp) -/

/-- The fields of `CChainParams` read by pow.cpp. The class declaration
(chainparams.h) is not part of the sources; the numeric fields are signed
integers and are converted where pow.cpp stores them in `unsigned int`. -/
structure CChainParams where
  bnProofOfWorkLimit : Nat
  fAllowMinDifficultyBlocks : Bool
  fSkipProofOfWorkCheck : Bool
  nTargetSpacing : Int
  nHeight_Version2 : Int
  nHeight_Version3 : Int
  nInterval_Version1 : Int
  nInterval_Version2 : Int
  nInterval_Version3 : Int
  nTargetTimespan_Version1 : Int
  nTargetTimespan_Version2 : Int
  nTargetTimespan_Version3 : Int
  nAveragingInterval_Version1 : Int
  nAveragingInterval_Version2 : Int
  nAveragingInterval_Version3 : Int
  nAveragingTargetTimespan_Version1 : Int
  nAveragingTargetTimespan_Version2 : Int
  nAveragingTargetTimespan_Version3 : Int
  nMaxAdjustDown_Version1 : Int
  nMaxAdjustDown_Version2 : Int
  nMaxAdjustDown_Version3 : Int
  nMaxAdjustUp_Version1 : Int
  nMaxAdjustUp_Version2 : Int
  nMaxAdjustUp_Version3 : Int

/-- The constructor `CMainParams::CMainParams`, in the order of its assignments. -/
def mainParams : CChainParams :=
  let nTargetSpacing : Int := 40
  let nTargetTimespan_Version1 : Int := 60 * 60
  let nInterval_Version1 : Int := Int.tdiv nTargetTimespan_Version1 nTargetSpacing
  let nInterval_Version2 : Int := 15
  let nTargetTimespan_Version2 : Int := nInterval_Version2 * nTargetSpacing
  let nInterval_Version3 : Int := 1
  let nTargetTimespan_Version3 : Int := nInterval_Version3 * nTargetSpacing
  let nMaxAdjustDown_Version1 : Int := 300
  let nMaxAdjustUp_Version1 : Int := 75
  let nAveragingInterval_Version1 : Int := nInterval_Version1
  let nAveragingInterval_Version2 : Int := nInterval_Version2
  let nAveragingInterval_Version3 : Int := 6
  { bnProofOfWorkLimit := (uint256Mod - 1) / 2 ^ 20
    fAllowMinDifficultyBlocks := false
    fSkipProofOfWorkCheck := false
    nTargetSpacing := nTargetSpacing
    nHeight_Version2 := 208440
    nHeight_Version3 := 426000
    nInterval_Version1 := nInterval_Version1
    nInterval_Version2 := nInterval_Version2
    nInterval_Version3 := nInterval_Version3
    nTargetTimespan_Version1 := nTargetTimespan_Version1
    nTargetTimespan_Version2 := nTargetTimespan_Version2
    nTargetTimespan_Version3 := nTargetTimespan_Version3
    nAveragingInterval_Version1 := nAveragingInterval_Version1
    nAveragingInterval_Version2 := nAveragingInterval_Version2
    nAveragingInterval_Version3 := nAveragingInterval_Version3
    nAveragingTargetTimespan_Version1 := nAveragingInterval_Version1 * nTargetSpacing
    nAveragingTargetTimespan_Version2 := nAveragingInterval_Version2 * nTargetSpacing
    nAveragingTargetTimespan_Version3 := nAveragingInterval_Version3 * nTargetSpacing
    nMaxAdjustDown_Version1 := nMaxAdjustDown_Version1
    nMaxAdjustDown_Version2 := nMaxAdjustDown_Version1
    nMaxAdjustDown_Version3 := 3
    nMaxAdjustUp_Version1 := nMaxAdjustUp_Version1
    nMaxAdjustUp_Version2 := nMaxAdjustUp_Version1
    nMaxAdjustUp_Version3 := 2 }

/-- The constructor `CTestNetParams::CTestNetParams`: it runs after the one of
`CMainParams` and changes, of the fields read by pow.cpp, the spacing and the
minimum-difficulty flag; the retarget constants derived from the main-network
spacing stay as they are. -/
def testNetParams : CChainParams :=
  { mainParams with nTargetSpacing := 150, fAllowMinDifficultyBlocks := true }

/-- The constructor `CRegTestParams::CRegTestParams`, on top of the test network:
`bnProofOfWorkLimit = ~uint256(0) >> 1`. -/
def regTestParams : CChainParams :=
  { testNetParams with
    nTargetSpacing := 150
    bnProofOfWorkLimit := (uint256Mod - 1) / 2 ^ 1
    fAllowMinDifficultyBlocks := true }

/-- The constructor `CUnitTestParams::CUnitTestParams`, on top of the main network. -/
def unitTestParams : CChainParams :=
  { mainParams with fAllowMinDifficultyBlocks := false }

/-! ## Block index -/

/-- The fields of `CBlockIndex` read by pow.cpp and checkpoints.cpp; the
predecessor link is the tail of the list the block heads. `nHeight` is an `int`
that is never negative, `nTime` and `nBits` are `unsigned int`. -/
structure CBlockIndex where
  nHeight : Nat
  nTime : Nat
  nBits : Nat
  nChainTx : Nat
  deriving DecidableEq, Repr

/-- The field of `CBlockHeader` read by pow.cpp. -/
structure CBlockHeader where
  nTime : Nat
  deriving DecidableEq, Repr

/-- `CBlockIndex::GetBlockTime`: the time as `int64_t`. -/
def CBlockIndex.GetBlockTime (b : CBlockIndex) : Int := (b.nTime : Int)

/-- `CBlockHeader::GetBlockTime`: the time as `int64_t`. -/
def CBlockHeader.GetBlockTime (b : CBlockHeader) : Int := (b.nTime : Int)

/-- The ways pow.cpp stops without a value. -/
inductive PowError where
  | assertionFailed
  | divisionByZero
  deriving DecidableEq, Repr

deriving instance DecidableEq for Except

/-! ## pow.cpp -/

/-- The six `unsigned int` locals of `GetNextWorkRequired` that hold the rules
of the active generation. -/
structure RetargetRules where
  nInterval : Nat
  nTargetTimespan : Nat
  nAveragingInterval : Nat
  nMinActualTimespan : Nat
  nMaxActualTimespan : Nat
  nAveragingTargetTimespan : Nat
  deriving DecidableEq, Repr

/-- The `static const int nMinActualTimespan_VersionN` of `GetNextWorkRequired`,
as stored in the `unsigned int` local: truncating division, then 32 bits. -/
def minActualTimespan (nAveragingTargetTimespan nMaxAdjustUp : Int) : Nat :=
  toUInt32 (Int.tdiv (nAveragingTargetTimespan * (100 - nMaxAdjustUp)) 100)

/-- The `static const int nMaxActualTimespan_VersionN` of `GetNextWorkRequired`,
as stored in the `unsigned int` local. -/
def maxActualTimespan (nAveragingTargetTimespan nMaxAdjustDown : Int) : Nat :=
  toUInt32 (Int.tdiv (nAveragingTargetTimespan * (100 + nMaxAdjustDown)) 100)

/-- The generation selection of `GetNextWorkRequired` (pow.cpp lines 36-63) for
a tip of height `nHeight`: the comparisons are on `nHeight + 1`. -/
def activeRules (p : CChainParams) (nHeight : Nat) : RetargetRules :=
  if (nHeight : Int) + 1 < p.nHeight_Version2 then
    { nAveragingInterval := toUInt32 p.nAveragingInterval_Version1
      nInterval := toUInt32 p.nInterval_Version1
      nTargetTimespan := toUInt32 p.nTargetTimespan_Version1
      nMinActualTimespan :=
        minActualTimespan p.nAveragingTargetTimespan_Version1 p.nMaxAdjustUp_Version1
      nMaxActualTimespan :=
        maxActualTimespan p.nAveragingTargetTimespan_Version1 p.nMaxAdjustDown_Version1
      nAveragingTargetTimespan := toUInt32 p.nAveragingTargetTimespan_Version1 }
  else if (nHeight : Int) + 1 < p.nHeight_Version3 then
    { nAveragingInterval := toUInt32 p.nAveragingInterval_Version2
      nInterval := toUInt32 p.nInterval_Version2
      nTargetTimespan := toUInt32 p.nTargetTimespan_Version2
      nMinActualTimespan :=
        minActualTimespan p.nAveragingTargetTimespan_Version2 p.nMaxAdjustUp_Version2
      nMaxActualTimespan :=
        maxActualTimespan p.nAveragingTargetTimespan_Version2 p.nMaxAdjustDown_Version2
      nAveragingTargetTimespan := toUInt32 p.nAveragingTargetTimespan_Version2 }
  else
    { nAveragingInterval := toUInt32 p.nAveragingInterval_Version3
      nInterval := toUInt32 p.nInterval_Version3
      nTargetTimespan := toUInt32 p.nTargetTimespan_Version3
      nMinActualTimespan :=
        minActualTimespan p.nAveragingTargetTimespan_Version3 p.nMaxAdjustUp_Version3
      nMaxActualTimespan :=
        maxActualTimespan p.nAveragingTargetTimespan_Version3 p.nMaxAdjustDown_Version3
      nAveragingTargetTimespan := toUInt32 p.nAveragingTargetTimespan_Version3 }

/-- The loop of pow.cpp lines 78-81, started on block `pindex` with predecessors
`pprev`: step back while there is a predecessor, the height is not a multiple
of the interval and the bits are the compact limit; return the bits reached. -/
def lastNonMinDifficultyBits (nInterval nProofOfWorkLimit : Nat) :
    CBlockIndex → List CBlockIndex → Nat
  | pindex, [] => pindex.nBits
  | pindex, prev :: rest =>
    if pindex.nHeight % nInterval ≠ 0 ∧ pindex.nBits = nProofOfWorkLimit then
      lastNonMinDifficultyBits nInterval nProofOfWorkLimit prev rest
    else pindex.nBits

/-- The `int blockstogoback` of pow.cpp lines 89-91: `nAveragingInterval - 1` is
computed in `unsigned int` and stored in an `int`; it is replaced by
`nAveragingInterval` unless `nHeight + 1` equals `nAveragingInterval`. -/
def blockstogoback (nHeight nAveragingInterval : Nat) : Int :=
  if nHeight + 1 ≠ nAveragingInterval then toInt32 nAveragingInterval
  else toInt32 ((nAveragingInterval + 4294967295) % 4294967296)

/-- The loop of pow.cpp lines 94-96: follow `pprev` while the pointer is not
null and fewer than `n` links have been followed. -/
def walkBack : Nat → List CBlockIndex → List CBlockIndex
  | 0, pindexFirst => pindexFirst
  | _ + 1, [] => []
  | n + 1, _ :: pprev => walkBack n pprev

/-- The two `if`s of pow.cpp lines 102-105, compared as `int64_t`. -/
def limitActualTimespan (nActualTimespan : Int) (nMinActualTimespan nMaxActualTimespan : Nat) :
    Int :=
  let t := if nActualTimespan < (nMinActualTimespan : Int) then (nMinActualTimespan : Int)
    else nActualTimespan
  if t > (nMaxActualTimespan : Int) then (nMaxActualTimespan : Int) else t

/-- The retarget arithmetic of pow.cpp lines 108-122 on the decoded target
`bnOld`; the caller has checked that `nAveragingTargetTimespan` is not zero.
`nActualTimespan` lies between two `unsigned int` values when it gets here. -/
def retargetValue (bnProofOfWorkLimit bnOld : Nat) (nActualTimespan : Int)
    (nAveragingTargetTimespan : Nat) : Nat :=
  let fShift := decide (bits bnOld > 235)
  let bnNew := if fShift then bnOld / 2 else bnOld
  let bnNew := (bnNew * nActualTimespan.toNat) % uint256Mod
  let bnNew := bnNew / nAveragingTargetTimespan
  let bnNew := if fShift then (bnNew * 2) % uint256Mod else bnNew
  if bnNew > bnProofOfWorkLimit then bnProofOfWorkLimit else bnNew

/-- `GetNextWorkRequired` of pow.cpp. The remainder by a zero `nInterval` and the
256-bit division by a zero `nAveragingTargetTimespan` are `divisionByZero`,
`assert(pindexFirst)` on a null pointer is `assertionFailed`. -/
def GetNextWorkRequired (p : CChainParams) (pindexLast : List CBlockIndex)
    (pblock : CBlockHeader) : Except PowError Nat :=
  let nProofOfWorkLimit := GetCompact p.bnProofOfWorkLimit
  match pindexLast with
  | [] => .ok nProofOfWorkLimit
  | tip :: pprev =>
    let r := activeRules p tip.nHeight
    if r.nInterval = 0 then .error .divisionByZero
    else if (tip.nHeight + 1) % r.nInterval ≠ 0 then
      if p.fAllowMinDifficultyBlocks then
        if pblock.GetBlockTime >
            tip.GetBlockTime + ((r.nTargetTimespan * 2 % 4294967296 : Nat) : Int) then
          .ok nProofOfWorkLimit
        else .ok (lastNonMinDifficultyBits r.nInterval nProofOfWorkLimit tip pprev)
      else .ok tip.nBits
    else
      match walkBack (blockstogoback tip.nHeight r.nAveragingInterval).toNat (tip :: pprev) with
      | [] => .error .assertionFailed
      | pindexFirst :: _ =>
        let nActualTimespan := limitActualTimespan
          (tip.GetBlockTime - pindexFirst.GetBlockTime) r.nMinActualTimespan r.nMaxActualTimespan
        if r.nAveragingTargetTimespan = 0 then .error .divisionByZero
        else .ok (GetCompact (retargetValue p.bnProofOfWorkLimit (SetCompact tip.nBits).value
          nActualTimespan r.nAveragingTargetTimespan))

/-- `CheckProofOfWork` of pow.cpp; `error(...)` logs and returns false. -/
def CheckProofOfWork (p : CChainParams) (hash nBits : Nat) : Bool :=
  if p.fSkipProofOfWorkCheck then true
  else
    let bnTarget := SetCompact nBits
    if bnTarget.fNegative || bnTarget.value == 0 || bnTarget.fOverflow ||
        decide (bnTarget.value > p.bnProofOfWorkLimit) then false
    else if hash > bnTarget.value then false
    else true

/-- `GetBlockProof` of pow.cpp: `~bnTarget / (bnTarget + 1) + 1` in 256-bit
arithmetic; the division throws when `bnTarget + 1` wraps to zero. -/
def GetBlockProof (block : CBlockIndex) : Except PowError Nat :=
  let bnTarget := SetCompact block.nBits
  if bnTarget.fNegative || bnTarget.fOverflow || bnTarget.value == 0 then .ok 0
  else
    let divisor := (bnTarget.value + 1) % uint256Mod
    if divisor = 0 then .error .divisionByZero
    else .ok (((uint256Mod - 1 - bnTarget.value) / divisor + 1) % uint256Mod)

/-! ## checkpoints.cpp -/

/-- `MapCheckpoints`, a `std::map<int, uint256>`: the entries in key order. -/
abbrev MapCheckpoints := List (Int × Nat)

/-- `std::map::find`: the value stored under the key, if any. -/
def mapFind (m : MapCheckpoints) (k : Int) : Option Nat :=
  match m with
  | [] => none
  | (k', v) :: rest => if k' = k then some v else mapFind rest k

/-- The hash of the main-network genesis block (chainparams.cpp), the value of
`hashGenesisBlock` when the main-network table is built. -/
def hashGenesisBlock : Nat :=
  0x09c7781c9df90708e278c35d38ea5c9041d7ecfcdd1c56ba67274b7cff3e1cea

/-- The main-network table `mapCheckpoints` of checkpoints.cpp. -/
def mapCheckpoints : MapCheckpoints :=
  [ (0, hashGenesisBlock),
    (8002, 0x73bc3b16d99bbf797f396c9532f80c3b73bb21304280de2efbc5edcb75739234),
    (18001, 0x5a7a4821aa4fc7ee3dea2f8319e9fa4d991a8c6762e79cb624c64e4cf1031582),
    (38002, 0x4962437c6d0a450f44c1e40cd38ff220f8122af1517e1329f1abd07fb7791e40),
    (160002, 0x478d381c92298614c3a05fb934a4fffc4d3e5b573efbba9b3e8b2ce8d26a0f8f),
    (208001, 0x2bb3f8b2d5081aefa0af9f5d8de42bd73a5d89eebf78aa7421cd63dc40a56d4c),
    (270001, 0x74988a3179ae6bbc5986e63f71bafc855202502b07e4d9331015eee82df80860),
    (290036, 0x145994381e5e4f0e5674adc1ace9a03b670838792f6bd6b650c80466453c2da3),
    (344665, 0x40fe36d8dec357aa529b6b1d99b2989a37ed8c7b065a0e3345cd15a751b9c1ad),
    (400236, 0xf9a4b8e21d410539e45ff3f11c28dee8966de7edffc45fd02dd1a5f4e7d4ef38),
    (415000, 0x16ef8ab98a7300039a5755d5bdc00e31dada9d2f1c440ff7928f43c4ea41c0a8),
    (420937, 0x48a75e4687021ec0dda2031439de50b61933e197a4e1a1185d131cc2b59b8444),
    (425606, 0x62c8d811b1a49f6fdaffded704dc48b1c98d6f8dd736d8afb96c9b097774a85e),
    (508694, 0x65cde197e9118e5164c4dcdcdc6fcfaf8c0de605d569cefd56aa220e7739da6a),
    (696454, 0x8cfb75684405e22f8f69522ec11f1e5206758e37f25db13880548f69fe6f1976),
    (955000, 0xb5517a50aee6af59eb0ab4ee3262bcbaf3f6672b9301cdd3302e4bab491e7526) ]

/-- The test-network table `mapCheckpointsTestnet` of checkpoints.cpp. -/
def mapCheckpointsTestnet : MapCheckpoints :=
  [ (0, 0x9b7bc86236c34b5e3a39367c036b7fe8807a966c22a7a1f0da2a198a27e03731) ]

/-- `Checkpoints::CCheckpointData`; the transactions per day are a `double` that
holds a whole number in both records. -/
structure CCheckpointData where
  mapCheckpoints : MapCheckpoints
  nTimeLastCheckpoint : Int
  nTransactionsLastCheckpoint : Int
  fTransactionsPerDay : Rat

/-- The record `data` of checkpoints.cpp. -/
def data : CCheckpointData :=
  { mapCheckpoints := mapCheckpoints
    nTimeLastCheckpoint := 1422274779
    nTransactionsLastCheckpoint := 1332490
    fTransactionsPerDay := 2160 }

/-- The record `dataTestnet` of checkpoints.cpp. -/
def dataTestnet : CCheckpointData :=
  { mapCheckpoints := mapCheckpointsTestnet
    nTimeLastCheckpoint := 1371387277
    nTransactionsLastCheckpoint := 547
    fTransactionsPerDay := 2160 }

/-- `Checkpoints::Checkpoints()`: the record of the selected network. -/
def Checkpoints (fTestNet : Bool) : CCheckpointData :=
  if fTestNet then dataTestnet else data

/-- `Checkpoints::CheckBlock`; `fCheckpoints` is the value of
`GetBoolArg("-checkpoints", true)`. -/
def CheckBlock (fCheckpoints fTestNet : Bool) (nHeight : Int) (hash : Nat) : Bool :=
  if !fCheckpoints then true
  else
    match mapFind (Checkpoints fTestNet).mapCheckpoints nHeight with
    | none => true
    | some h => hash == h

/-- `Checkpoints::fSigcheckVerificationFactor`. -/
def fSigcheckVerificationFactor : Rat := 5

/-- `Checkpoints::GuessVerificationProgress` over exact rationals in place of
`double`. `data` is the record returned by `Checkpoints()`, `nNow` the value of
`time(NULL)`, `pindex` the pointer (the empty list is null). -/
def GuessVerificationProgress (data : CCheckpointData) (nNow : Int)
    (pindex : List CBlockIndex) : Rat :=
  match pindex with
  | [] => 0
  | pindex :: _ =>
    if (pindex.nChainTx : Int) ≤ data.nTransactionsLastCheckpoint then
      let nCheapBefore : Rat := (pindex.nChainTx : Rat)
      let nCheapAfter : Rat :=
        ((data.nTransactionsLastCheckpoint - (pindex.nChainTx : Int) : Int) : Rat)
      let nExpensiveAfter : Rat :=
        ((nNow - data.nTimeLastCheckpoint : Int) : Rat) / 86400 * data.fTransactionsPerDay
      let fWorkBefore := nCheapBefore
      let fWorkAfter := nCheapAfter + nExpensiveAfter * fSigcheckVerificationFactor
      fWorkBefore / (fWorkBefore + fWorkAfter)
    else
      let nCheapBefore : Rat := (data.nTransactionsLastCheckpoint : Rat)
      let nExpensiveBefore : Rat :=
        (((pindex.nChainTx : Int) - data.nTransactionsLastCheckpoint : Int) : Rat)
      let nExpensiveAfter : Rat :=
        ((nNow - (pindex.nTime : Int) : Int) : Rat) / 86400 * data.fTransactionsPerDay
      let fWorkBefore := nCheapBefore + nExpensiveBefore * fSigcheckVerificationFactor
      let fWorkAfter := nExpensiveAfter * fSigcheckVerificationFactor
      fWorkBefore / (fWorkBefore + fWorkAfter)

/-- `Checkpoints::GetTotalBlocksEstimate`: the key of `checkpoints.rbegin()`, the
last entry in key order; `none` stands for dereferencing `rbegin()` of an empty
map, which has no defined value. -/
def GetTotalBlocksEstimate (fCheckpoints fTestNet : Bool) : Option Int :=
  if !fCheckpoints then some 0
  else (Checkpoints fTestNet).mapCheckpoints.getLast?.map Prod.fst

/-- `std::map<uint256, CBlockIndex*>::find` on the caller's block index, given
by its entries: the pointer stored under the hash, if the hash is a key. The
pointers stored in the block index are its nodes and are never null; `α` is the
type of these nodes. -/
def blockIndexFind {α : Type} (mapBlockIndex : List (Nat × α)) (hash : Nat) : Option α :=
  match mapBlockIndex with
  | [] => none
  | (k, pindex) :: rest => if k = hash then some pindex else blockIndexFind rest hash

/-- The loop of `Checkpoints::GetLastCheckpoint` over the checkpoints still to
visit: return the pointer stored under the first hash that is a key of the
block index; `none` is the `return NULL` after the loop. -/
def lastCheckpointLoop {α : Type} (mapBlockIndex : List (Nat × α)) :
    List (Int × Nat) → Option α
  | [] => none
  | (_, hash) :: rest =>
    match blockIndexFind mapBlockIndex hash with
    | some pindex => some pindex
    | none => lastCheckpointLoop mapBlockIndex rest

/-- `Checkpoints::GetLastCheckpoint`: `BOOST_REVERSE_FOREACH` visits the entries
of the map from the greatest key to the least; `none` is the null result. -/
def GetLastCheckpoint {α : Type} (fCheckpoints fTestNet : Bool)
    (mapBlockIndex : List (Nat × α)) : Option α :=
  if !fCheckpoints then none
  else lastCheckpointLoop mapBlockIndex (Checkpoints fTestNet).mapCheckpoints.reverse

/-! ## Auxiliary definitions of the development -/

/-- The mantissa of the compact form with exponent `e`. -/
def mantissaOf (x e : Nat) : Nat :=
  if e ≤ 3 then x * 2 ^ (8 * (3 - e)) else x / 2 ^ (8 * (e - 3))

/-- The number of low bits the compact form of `x` drops. -/
def droppedBits (x : Nat) : Nat := 8 * (bits x / 8 - 2)

/-- Section 4.2 step 5 of the specification: the value clamped into `[lo, hi]`. -/
def specClamp (t : Int) (lo hi : Nat) : Int := min (hi : Int) (max (lo : Int) t)

/-- Section 4.2 step 6 of the specification, in 256-bit unsigned arithmetic: when
the bit-length of `x` exceeds 235, shift right by one, multiply, divide, shift
left by one; otherwise multiply and divide. -/
def specRetarget (x a T : Nat) : Nat :=
  if 235 < bits x then ((((x >>> 1) * a) % uint256Mod / T) <<< 1) % uint256Mod
  else (x * a) % uint256Mod / T

/-- The first 90 blocks of a regression-test chain: every block carries the bits
of the regression-test genesis block, and the blocks are 150 seconds apart. -/
def regTestChain : List CBlockIndex :=
  (List.range 90).reverse.map fun h => ⟨h, 1296688602 + 150 * h, 0x207fffff, 0⟩

/-- The keys of a checkpoint table increase strictly, as in every `std::map`. -/
def KeysIncreasing (m : MapCheckpoints) : Prop := m.Pairwise fun a b => a.1 < b.1

/-- Test that every block of a chain is one higher than its predecessor. -/
def consecutiveHeights : List CBlockIndex → Bool
  | b :: prev :: rest => b.nHeight == prev.nHeight + 1 && consecutiveHeights (prev :: rest)
  | _ => true

/-- A chain with consecutive heights: every block is one higher than its
predecessor. -/
def ConsecutiveHeights (chain : List CBlockIndex) : Prop := consecutiveHeights chain = true

/-- Section 4.2 step 2 of the specification: the rules a generation supplies,
with `minActual = averagingTargetTimespan * (100 - maxAdjustUp) / 100` and
`maxActual = averagingTargetTimespan * (100 + maxAdjustDown) / 100` in
truncating integer division, each stored in 32 unsigned bits. -/
def specGenerationRules (nInterval nTargetTimespan nAveragingInterval
    nAveragingTargetTimespan nMaxAdjustUp nMaxAdjustDown : Int) : RetargetRules :=
  { nInterval := toUInt32 nInterval
    nTargetTimespan := toUInt32 nTargetTimespan
    nAveragingInterval := toUInt32 nAveragingInterval
    nMinActualTimespan :=
      toUInt32 (Int.tdiv (nAveragingTargetTimespan * (100 - nMaxAdjustUp)) 100)
    nMaxActualTimespan :=
      toUInt32 (Int.tdiv (nAveragingTargetTimespan * (100 + nMaxAdjustDown)) 100)
    nAveragingTargetTimespan := toUInt32 nAveragingTargetTimespan }

/-- Section 4.2 step 4 of the specification: `averagingInterval` links, but
`averagingInterval - 1` when `tip.height + 1 == averagingInterval`. -/
def specBlocksToGoBack (nHeight nAveragingInterval : Nat) : Nat :=
  if nHeight + 1 = nAveragingInterval then nAveragingInterval - 1 else nAveragingInterval

/-- The blocks behind the tip of the worked example of the specification
(section 8, item 7): heights 88 down to 0, genesis at time 1371488396, one
block every 40 seconds, bits of the compact ceiling. -/
def mainFirstPeriodPrev : List CBlockIndex :=
  (List.range 89).reverse.map fun h => ⟨h, 1371488396 + 40 * h, 0x1e0fffff, 0⟩

/-- The tip of the worked example of the specification: height 89, 3600 seconds
after genesis, bits of the compact ceiling. -/
def mainFirstPeriodTip : CBlockIndex := ⟨89, 1371488396 + 3600, 0x1e0fffff, 0⟩

/-- Section 4.6 of the specification: the work before the position. -/
def specWorkBefore (data : CCheckpointData) (pindex : CBlockIndex) : Rat :=
  if (pindex.nChainTx : Int) ≤ data.nTransactionsLastCheckpoint then (pindex.nChainTx : Rat)
  else (data.nTransactionsLastCheckpoint : Rat) +
    5 * ((pindex.nChainTx : Rat) - (data.nTransactionsLastCheckpoint : Rat))

/-- Section 4.6 of the specification: the estimated work after the position. -/
def specWorkAfter (data : CCheckpointData) (nNow : Int) (pindex : CBlockIndex) : Rat :=
  if (pindex.nChainTx : Int) ≤ data.nTransactionsLastCheckpoint then
    ((data.nTransactionsLastCheckpoint : Rat) - (pindex.nChainTx : Rat)) +
      5 * ((nNow : Rat) - (data.nTimeLastCheckpoint : Rat)) / 86400 * data.fTransactionsPerDay
  else 5 * ((nNow : Rat) - (pindex.nTime : Rat)) / 86400 * data.fTransactionsPerDay

/-- The retarget arithmetic of pow.cpp lines 113-119 in unbounded integers: the
same shifts, product and quotient, with nothing reduced to 256 bits. -/
def retargetUnbounded (x a T : Nat) : Nat :=
  if 235 < bits x then x / 2 * a / T * 2 else x * a / T

/-- The number of `pprev` links the loop of pow.cpp lines 94-96 follows: the
loop `walkBack` with a counter. -/
def walkBackLinks : Nat → List CBlockIndex → Nat
  | 0, _ => 0
  | _ + 1, [] => 0
  | n + 1, _ :: pprev => walkBackLinks n pprev + 1

/-- The number of `pprev` links the loop of pow.cpp lines 78-81 follows: the
loop `lastNonMinDifficultyBits` with a counter. -/
def skipWalkLinks (nInterval nProofOfWorkLimit : Nat) : CBlockIndex → List CBlockIndex → Nat
  | _, [] => 0
  | pindex, prev :: rest =>
    if pindex.nHeight % nInterval ≠ 0 ∧ pindex.nBits = nProofOfWorkLimit then
      skipWalkLinks nInterval nProofOfWorkLimit prev rest + 1
    else 0

/-- A well-formed chain: consecutive heights down to a genesis block of height
0, which has the null predecessor. -/
def WellFormedChain (chain : List CBlockIndex) : Prop :=
  ConsecutiveHeights chain ∧ chain.getLast?.map CBlockIndex.nHeight = some 0

/-- A regression-test chain of 90 blocks whose tip, of height 89, has the time
`nTime`: every block carries the bits of the regression-test genesis block,
and the blocks behind the tip are 40 seconds apart from the genesis time. -/
def regTestChainAt (nTime : Nat) : List CBlockIndex :=
  ⟨89, nTime, 0x207fffff, 0⟩ ::
    (List.range 89).reverse.map fun h => ⟨h, 1296688602 + 40 * h, 0x207fffff, 0⟩

/-- The `nActualTimespan` of pow.cpp lines 100-105 for a tip and a reference
block under the rules `r`: the time difference after the two bounds. -/
def actualTimespanOf (r : RetargetRules) (tip first : CBlockIndex) : Int :=
  limitActualTimespan (tip.GetBlockTime - first.GetBlockTime) r.nMinActualTimespan
    r.nMaxActualTimespan

/-! ## Bit length and the compact codec -/

theorem bitsAux_le_iff (fuel : Nat) : ∀ x n : Nat, x < 2 ^ fuel → (bitsAux fuel x ≤ n ↔ x < 2 ^ n) := by
  induction fuel with
  | zero =>
    intro x n hx
    have hx0 : x = 0 := by simpa using hx
    subst hx0
    simp [bitsAux]
  | succ f ih =>
    intro x n hx
    by_cases h0 : x = 0
    · subst h0
      simp [bitsAux]
    · have hhalf : x / 2 < 2 ^ f := by
        rw [Nat.div_lt_iff_lt_mul (by norm_num)]
        rw [pow_succ] at hx
        exact hx
      cases n with
      | zero =>
        simp [bitsAux, h0]
      | succ m =>
        have := ih (x / 2) m hhalf
        simp only [bitsAux, h0, if_false, Nat.add_le_add_iff_right]
        rw [this, Nat.div_lt_iff_lt_mul (by norm_num), pow_succ]

theorem bits_le_iff {x : Nat} (hx : x < uint256Mod) (n : Nat) : bits x ≤ n ↔ x < 2 ^ n :=
  bitsAux_le_iff 256 x n hx

theorem lt_two_pow_bits {x : Nat} (hx : x < uint256Mod) : x < 2 ^ bits x :=
  (bits_le_iff hx (bits x)).1 le_rfl

theorem bits_le_256 {x : Nat} (hx : x < uint256Mod) : bits x ≤ 256 :=
  (bits_le_iff hx 256).2 hx

theorem two_pow_le_of_lt_bits {x n : Nat} (hx : x < uint256Mod) (h : n < bits x) : 2 ^ n ≤ x := by
  by_contra hlt
  have := (bits_le_iff hx n).2 (not_le.1 hlt)
  omega

theorem bits_mono {x y : Nat} (hy : y < uint256Mod) (hxy : x ≤ y) : bits x ≤ bits y :=
  (bits_le_iff (lt_of_le_of_lt hxy hy) _).2 (lt_of_le_of_lt hxy (lt_two_pow_bits hy))

theorem SetCompact_of_parts (m e : Nat) (hm : m < 2 ^ 23) :
    SetCompact (m + e * 2 ^ 24) =
      { value := if e ≤ 3 then m / 2 ^ (8 * (3 - e)) else (m * 2 ^ (8 * (e - 3))) % uint256Mod
        fNegative := false
        fOverflow := decide (3 < e ∧ uint256Mod ≤ m * 2 ^ (8 * (e - 3))) } := by
  have h1 : (m + e * 2 ^ 24) / 2 ^ 24 = e := by omega
  have h2 : (m + e * 2 ^ 24) % 2 ^ 23 = m := by omega
  have h3 : ((m + e * 2 ^ 24) / 2 ^ 23) % 2 = 0 := by omega
  unfold SetCompact
  simp only [h1, h2, h3]
  simp

theorem GetCompact_eq {x : Nat} (h0 : 0 < x) (hx : x < uint256Mod) :
    GetCompact x = mantissaOf x (bits x / 8 + 1) + (bits x / 8 + 1) * 2 ^ 24 ∧
      mantissaOf x (bits x / 8 + 1) < 2 ^ 23 := by
  have hb := lt_two_pow_bits hx
  have hbpos : 0 < bits x := by
    rcases Nat.eq_zero_or_pos (bits x) with h | h
    · rw [h] at hb
      omega
    · exact h
  have hlo : 2 ^ (bits x - 1) ≤ x := two_pow_le_of_lt_bits hx (by omega)
  unfold GetCompact mantissaOf
  generalize bits x = b at hb hbpos hlo ⊢
  obtain ⟨q, r, hr, rfl⟩ : ∃ q r, r < 8 ∧ b = 8 * q + r :=
    ⟨b / 8, b % 8, Nat.mod_lt _ (by norm_num), (Nat.div_add_mod b 8).symm⟩
  have hq : (8 * q + r) / 8 = q := by omega
  rw [hq]
  by_cases hr0 : r = 0
  · -- the top byte is full: the sign bit would be set, the exponent grows
    subst hr0
    have hs : (8 * q + 0 + 7) / 8 = q := by omega
    have hq1 : 1 ≤ q := by omega
    simp only [hs, Nat.add_zero] at hb hlo ⊢
    by_cases hq3 : q ≤ 3
    · interval_cases q <;>
      simp only [Nat.reducePow, Nat.reduceMul, Nat.reduceSub, Nat.reduceAdd, Nat.reduceLeDiff,
        if_true, if_false, le_refl, Nat.mul_one, Nat.zero_add, Nat.add_zero] at hb hlo ⊢ <;>
      first | omega | (split_ifs <;> omega)
    · have hq4 : 4 ≤ q := by omega
      have e1 : 2 ^ (8 * q - 1) = 2 ^ 23 * 2 ^ (8 * (q - 3)) := by
        rw [← pow_add]
        congr 1
        omega
      have e2 : 2 ^ (8 * q) = 2 ^ 24 * 2 ^ (8 * (q - 3)) := by
        rw [← pow_add]
        congr 1
        omega
      have e3 : 2 ^ (8 * (q + 1 - 3)) = 2 ^ (8 * (q - 3)) * 256 := by
        rw [show 8 * (q + 1 - 3) = 8 * (q - 3) + 8 by omega, pow_add]
        norm_num
      have hpos : 0 < 2 ^ (8 * (q - 3)) := by positivity
      have c1 : 2 ^ 23 ≤ x / 2 ^ (8 * (q - 3)) := by
        rw [Nat.le_div_iff_mul_le hpos, ← e1]
        exact hlo
      have c2 : x / 2 ^ (8 * (q - 3)) < 2 ^ 24 := by
        rw [Nat.div_lt_iff_lt_mul hpos, ← e2]
        exact hb
      have c3 : x / 2 ^ (8 * (q + 1 - 3)) = x / 2 ^ (8 * (q - 3)) / 256 := by
        rw [e3, Nat.div_div_eq_div_mul]
      rw [if_neg hq3, if_neg (by omega : ¬ q + 1 ≤ 3), c3]
      generalize x / 2 ^ (8 * (q - 3)) = c at c1 c2 ⊢
      simp only [Nat.reducePow] at c1 c2 ⊢
      first | omega | (split_ifs <;> omega)
  · -- the top byte is not full: no adjustment
    have hs : (8 * q + r + 7) / 8 = q + 1 := by omega
    have hb7 : x < 2 ^ (8 * q + 7) :=
      lt_of_lt_of_le hb (Nat.pow_le_pow_right (by norm_num) (by omega))
    simp only [hs]
    by_cases hq2 : q ≤ 2
    · interval_cases q <;>
      simp only [Nat.reducePow, Nat.reduceMul, Nat.reduceSub, Nat.reduceAdd, Nat.reduceLeDiff,
        if_true, if_false, le_refl, Nat.mul_one, Nat.zero_add, Nat.add_zero] at hb7 ⊢ <;>
      first | omega | (split_ifs <;> omega)
    · have e1 : 2 ^ (8 * q + 7) = 2 ^ 23 * 2 ^ (8 * (q + 1 - 3)) := by
        rw [← pow_add]
        congr 1
        omega
      have hpos : 0 < 2 ^ (8 * (q + 1 - 3)) := by positivity
      have c2 : x / 2 ^ (8 * (q + 1 - 3)) < 2 ^ 23 := by
        rw [Nat.div_lt_iff_lt_mul hpos, ← e1]
        exact hb7
      rw [if_neg (by omega : ¬ q + 1 ≤ 3)]
      generalize x / 2 ^ (8 * (q + 1 - 3)) = c at c2 ⊢
      simp only [Nat.reducePow] at c2 ⊢
      first | omega | (split_ifs <;> omega)

/-- Decoding the encoding of a 256-bit value: the value with its dropped low
bits cleared, and no flag. -/
theorem SetCompact_GetCompact {x : Nat} (hx : x < uint256Mod) :
    SetCompact (GetCompact x) =
      { value := x / 2 ^ droppedBits x * 2 ^ droppedBits x
        fNegative := false
        fOverflow := false } := by
  rcases Nat.eq_zero_or_pos x with h0 | h0
  · subst h0
    rfl
  · obtain ⟨hE, hm⟩ := GetCompact_eq h0 hx
    rw [hE, SetCompact_of_parts _ _ hm]
    unfold mantissaOf droppedBits
    generalize bits x / 8 = q
    by_cases hq : q + 1 ≤ 3
    · have hk : q - 2 = 0 := by omega
      have hpos : 0 < 2 ^ (8 * (3 - (q + 1))) := by positivity
      simp [hq, hk, Nat.mul_div_cancel _ hpos]
    · have hk : q + 1 - 3 = q - 2 := by omega
      have hle : x / 2 ^ (8 * (q - 2)) * 2 ^ (8 * (q - 2)) ≤ x := Nat.div_mul_le_self _ _
      have hlt : x / 2 ^ (8 * (q - 2)) * 2 ^ (8 * (q - 2)) < uint256Mod := lt_of_le_of_lt hle hx
      simp only [hq, hk, if_false, Nat.mod_eq_of_lt hlt]
      simp
      intro _
      exact hlt

theorem SetCompact_GetCompact_value_le {x : Nat} (hx : x < uint256Mod) :
    (SetCompact (GetCompact x)).value ≤ x := by
  rw [SetCompact_GetCompact hx]
  exact Nat.div_mul_le_self _ _

theorem SetCompact_value_lt (nCompact : Nat) : (SetCompact nCompact).value < uint256Mod := by
  unfold SetCompact
  simp only
  split_ifs with h
  · have h1 : nCompact % 2 ^ 23 < 2 ^ 23 := Nat.mod_lt _ (by positivity)
    have h2 : nCompact % 2 ^ 23 / 2 ^ (8 * (3 - nCompact / 2 ^ 24)) ≤ nCompact % 2 ^ 23 :=
      Nat.div_le_self _ _
    have h3 : (2 : Nat) ^ 23 ≤ uint256Mod := Nat.pow_le_pow_right (by norm_num) (by norm_num)
    omega
  · exact Nat.mod_lt _ (by unfold uint256Mod; positivity)

/-- A value with at most 23 significant bits above a whole number of zero bytes
loses nothing in the compact form. -/
theorem droppedBits_dvd {x m i : Nat} (hx : x < uint256Mod) (hm : m < 2 ^ 23)
    (hxm : x = m * 2 ^ (8 * i)) : 2 ^ droppedBits x ∣ x := by
  have hlt : x < 2 ^ (23 + 8 * i) := by
    rw [hxm, pow_add]
    exact Nat.mul_lt_mul_of_pos_right hm (by positivity)
  have hbits : bits x ≤ 23 + 8 * i := (bits_le_iff hx _).2 hlt
  have hk : droppedBits x ≤ 8 * i := by
    unfold droppedBits
    omega
  calc 2 ^ droppedBits x ∣ 2 ^ (8 * i) := Nat.pow_dvd_pow 2 hk
    _ ∣ x := by
      rw [hxm]
      exact Dvd.intro_left m rfl

/-- Every decoded value is a 23-bit mantissa above a whole number of zero bytes. -/
theorem SetCompact_value_form (nCompact : Nat) :
    ∃ m i, m < 2 ^ 23 ∧ (SetCompact nCompact).value = m * 2 ^ (8 * i) := by
  have hw : nCompact % 2 ^ 23 < 2 ^ 23 := Nat.mod_lt _ (by positivity)
  unfold SetCompact
  simp only
  split_ifs with h
  · refine ⟨nCompact % 2 ^ 23 / 2 ^ (8 * (3 - nCompact / 2 ^ 24)), 0, ?_, by simp⟩
    exact lt_of_le_of_lt (Nat.div_le_self _ _) hw
  · generalize nCompact / 2 ^ 24 - 3 = i
    generalize nCompact % 2 ^ 23 = w at hw
    by_cases hi : 8 * i ≤ 256
    · refine ⟨w % 2 ^ (256 - 8 * i), i, lt_of_le_of_lt (Nat.mod_le _ _) hw, ?_⟩
      have e : uint256Mod = 2 ^ (256 - 8 * i) * 2 ^ (8 * i) := by
        unfold uint256Mod
        rw [← pow_add]
        congr 1
        omega
      rw [e, Nat.mul_mod_mul_right]
    · refine ⟨0, i, by positivity, ?_⟩
      have e : 2 ^ (8 * i) = 2 ^ (8 * i - 256) * uint256Mod := by
        unfold uint256Mod
        rw [← pow_add]
        congr 1
        omega
      rw [e, ← Nat.mul_assoc, Nat.mul_mod_left]
      simp

theorem SetCompact_GetCompact_of_decoded (nCompact : Nat) :
    SetCompact (GetCompact (SetCompact nCompact).value) =
      { value := (SetCompact nCompact).value, fNegative := false, fOverflow := false } := by
  have hx := SetCompact_value_lt nCompact
  obtain ⟨m, i, hm, hform⟩ := SetCompact_value_form nCompact
  rw [SetCompact_GetCompact hx, Nat.div_mul_cancel (droppedBits_dvd hx hm hform)]

/-- The overflow flag of `SetCompact` in terms of the size and mantissa bytes:
a non-zero mantissa with more than 34 bytes, or more than 33 bytes and a
mantissa above one byte, or more than 32 bytes and a mantissa above two bytes. -/
theorem SetCompact_fOverflow_iff (nCompact : Nat) :
    (SetCompact nCompact).fOverflow = true ↔
      (nCompact % 2 ^ 23 ≠ 0 ∧
        (34 < nCompact / 2 ^ 24 ∨ (0xff < nCompact % 2 ^ 23 ∧ 33 < nCompact / 2 ^ 24) ∨
          (0xffff < nCompact % 2 ^ 23 ∧ 32 < nCompact / 2 ^ 24))) := by
  have hw : nCompact % 2 ^ 23 < 2 ^ 23 := Nat.mod_lt _ (by positivity)
  unfold SetCompact
  simp only [decide_eq_true_eq]
  generalize nCompact % 2 ^ 23 = w at hw
  generalize nCompact / 2 ^ 24 = s
  have hM : uint256Mod = 2 ^ 256 := rfl
  rcases Nat.lt_or_ge s 33 with hs | hs
  · -- at most 32 bytes: 23 + 232 bits fit
    have hpow : 2 ^ (8 * (s - 3)) ≤ 2 ^ 232 := Nat.pow_le_pow_right (by norm_num) (by omega)
    have hlt : w * 2 ^ (8 * (s - 3)) < uint256Mod := by
      calc w * 2 ^ (8 * (s - 3)) ≤ w * 2 ^ 232 := Nat.mul_le_mul_left _ hpow
        _ < 2 ^ 23 * 2 ^ 232 := Nat.mul_lt_mul_of_pos_right hw (by positivity)
        _ ≤ uint256Mod := by rw [hM]; norm_num
    constructor
    · rintro ⟨_, h⟩
      omega
    · rintro ⟨_, h⟩
      omega
  · rcases Nat.lt_or_ge s 35 with hs35 | hs35
    · rcases Nat.lt_or_ge s 34 with hs34 | hs34
      · have e : s = 33 := by omega
        subst e
        simp only [hM, Nat.reduceSub, Nat.reduceMul, Nat.reducePow] at hw ⊢
        omega
      · have e : s = 34 := by omega
        subst e
        simp only [hM, Nat.reduceSub, Nat.reduceMul, Nat.reducePow] at hw ⊢
        omega
    · have hpow : uint256Mod ≤ 2 ^ (8 * (s - 3)) := by
        rw [hM]
        exact Nat.pow_le_pow_right (by norm_num) (by omega)
      constructor
      · rintro ⟨_, h⟩
        refine ⟨?_, Or.inl (by omega)⟩
        intro h0
        rw [h0, Nat.zero_mul, hM] at h
        simp only [Nat.reducePow] at h
        omega
      · rintro ⟨h0, _⟩
        refine ⟨by omega, ?_⟩
        calc uint256Mod ≤ 2 ^ (8 * (s - 3)) := hpow
          _ ≤ w * 2 ^ (8 * (s - 3)) := Nat.le_mul_of_pos_left _ (by omega)

theorem walkBack_eq_drop (n : Nat) (l : List CBlockIndex) : walkBack n l = l.drop n := by
  induction n generalizing l with
  | zero => rfl
  | succ k ih =>
    cases l with
    | nil => rfl
    | cons b t => simpa [walkBack] using ih t

theorem walkBack_of_lt {n : Nat} {l : List CBlockIndex} (h : n < l.length) :
    walkBack n l = l.get ⟨n, h⟩ :: l.drop (n + 1) := by
  rw [walkBack_eq_drop]
  exact List.drop_eq_getElem_cons h

/-- C1: in the retarget branch (the next height is a multiple of the active
interval, the chain reaches the reference block `first`, the averaging target
timespan `T` is not zero) `GetNextWorkRequired` returns
`GetCompact (min ceiling (g x))`, where `x` is the decoded tip bits, `a` the
difference of the tip and `first` times clamped into `[minActual, maxActual]`,
and `g` the 256-bit shift-guarded `x * a / T` of the specification. -/
theorem GetNextWorkRequired_retarget (p : CChainParams) (tip : CBlockIndex)
    (pprev : List CBlockIndex) (pblock : CBlockHeader)
    (hBoundary : (tip.nHeight + 1) % (activeRules p tip.nHeight).nInterval = 0)
    (hT : (activeRules p tip.nHeight).nAveragingTargetTimespan ≠ 0)
    (hFirst : (blockstogoback tip.nHeight (activeRules p tip.nHeight).nAveragingInterval).toNat
      < (tip :: pprev).length) :
    GetNextWorkRequired p (tip :: pprev) pblock =
      .ok (GetCompact (min p.bnProofOfWorkLimit
        (specRetarget (SetCompact tip.nBits).value
          (specClamp
            (tip.GetBlockTime - ((tip :: pprev).get
              ⟨(blockstogoback tip.nHeight (activeRules p tip.nHeight).nAveragingInterval).toNat,
                hFirst⟩).GetBlockTime)
            (activeRules p tip.nHeight).nMinActualTimespan
            (activeRules p tip.nHeight).nMaxActualTimespan).toNat
          (activeRules p tip.nHeight).nAveragingTargetTimespan))) := by
  have hI : (activeRules p tip.nHeight).nInterval ≠ 0 := by
    intro h0
    rw [h0, Nat.mod_zero] at hBoundary
    omega
  have hclamp : ∀ (t : Int) (lo hi : Nat), limitActualTimespan t lo hi = specClamp t lo hi := by
    intro t lo hi
    unfold limitActualTimespan specClamp
    simp only [min_def, max_def]
    split_ifs <;> omega
  have hval : ∀ (L x : Nat) (a : Int) (T : Nat),
      retargetValue L x a T = min L (specRetarget x a.toNat T) := by
    intro L x a T
    unfold retargetValue specRetarget
    simp only [gt_iff_lt, Nat.shiftRight_eq_div_pow, Nat.shiftLeft_eq, pow_one, min_def]
    by_cases hs : 235 < bits x
    · simp only [hs, decide_True, if_true]
      split_ifs <;> first | rfl | omega
    · simp only [hs, decide_False, if_false, Bool.false_eq_true]
      split_ifs <;> first | rfl | omega
  unfold GetNextWorkRequired
  simp only [hI, hBoundary, hT, if_false, ne_eq, not_true_eq_false, walkBack_of_lt hFirst,
    hclamp, hval]

/-- C1 at a main-network tip of generation 3 (interval 1, six blocks back) whose
target has bit-length 236: the timespan 250 is clamped to 247. -/
theorem GetNextWorkRequired_retarget_witness :
    GetNextWorkRequired mainParams
      [⟨426005, 1000250, 0x1e0ffff0, 0⟩, ⟨426004, 1000200, 0x1e0ffff0, 0⟩,
        ⟨426003, 1000160, 0x1e0ffff0, 0⟩, ⟨426002, 1000120, 0x1e0ffff0, 0⟩,
        ⟨426001, 1000080, 0x1e0ffff0, 0⟩, ⟨426000, 1000040, 0x1e0ffff0, 0⟩,
        ⟨425999, 1000000, 0x1e0ffff0, 0⟩] ⟨1000290⟩ =
      .ok (GetCompact (min mainParams.bnProofOfWorkLimit
        (specRetarget (SetCompact 0x1e0ffff0).value 247 240))) :=
  GetNextWorkRequired_retarget mainParams ⟨426005, 1000250, 0x1e0ffff0, 0⟩
    [⟨426004, 1000200, 0x1e0ffff0, 0⟩,
        ⟨426003, 1000160, 0x1e0ffff0, 0⟩, ⟨426002, 1000120, 0x1e0ffff0, 0⟩,
        ⟨426001, 1000080, 0x1e0ffff0, 0⟩, ⟨426000, 1000040, 0x1e0ffff0, 0⟩,
        ⟨425999, 1000000, 0x1e0ffff0, 0⟩] ⟨1000290⟩ (by decide) (by decide) (by decide)

/-- C2: when the next height is not a multiple of the active (positive)
retarget interval and the network does not allow minimum-difficulty blocks,
`GetNextWorkRequired` returns the bits of the tip, whatever the candidate
header and the blocks behind the tip are. -/
theorem GetNextWorkRequired_off_boundary (p : CChainParams) (tip : CBlockIndex)
    (pprev : List CBlockIndex) (pblock : CBlockHeader)
    (hInterval : 0 < (activeRules p tip.nHeight).nInterval)
    (hOff : (tip.nHeight + 1) % (activeRules p tip.nHeight).nInterval ≠ 0)
    (hMin : p.fAllowMinDifficultyBlocks = false) :
    GetNextWorkRequired p (tip :: pprev) pblock = .ok tip.nBits := by
  have hI : (activeRules p tip.nHeight).nInterval ≠ 0 := by omega
  unfold GetNextWorkRequired
  simp only [hI, hOff, hMin, if_false, ne_eq, not_false_eq_true, if_true, Bool.false_eq_true]

/-- C2 at a main-network tip of height 100 (generation 1, interval 90). -/
theorem GetNextWorkRequired_off_boundary_witness :
    GetNextWorkRequired mainParams [⟨100, 1371492396, 0x1e0ffff0, 0⟩] ⟨1371492436⟩ =
      .ok 0x1e0ffff0 :=
  GetNextWorkRequired_off_boundary mainParams ⟨100, 1371492396, 0x1e0ffff0, 0⟩ [] ⟨1371492436⟩
    (by decide) (by decide) (by decide)

theorem lastNonMinDifficultyBits_mem (nInterval limit : Nat) (pprev : List CBlockIndex) :
    ∀ pindex : CBlockIndex, ∃ b ∈ pindex :: pprev,
      lastNonMinDifficultyBits nInterval limit pindex pprev = b.nBits := by
  induction pprev with
  | nil =>
    intro pindex
    exact ⟨pindex, by simp, rfl⟩
  | cons prev rest ih =>
    intro pindex
    unfold lastNonMinDifficultyBits
    split_ifs with h
    · obtain ⟨b, hb, hEq⟩ := ih prev
      exact ⟨b, List.mem_cons_of_mem _ hb, hEq⟩
    · exact ⟨pindex, by simp, rfl⟩

theorem retargetValue_le (L x : Nat) (a : Int) (T : Nat) : retargetValue L x a T ≤ L := by
  unfold retargetValue
  simp only
  split_ifs <;> omega

/-- C3, as stated, fails: on the main network a tip off the retarget boundary
whose bits decode above the ceiling has those bits returned unchanged. -/
theorem GetNextWorkRequired_ceiling_counterexample :
    GetNextWorkRequired mainParams [⟨100, 1371492396, 0x207fffff, 0⟩] ⟨1371492436⟩ =
        .ok 0x207fffff ∧
      mainParams.bnProofOfWorkLimit < (SetCompact 0x207fffff).value := by
  decide

/-- C3, amended: when the ceiling is a 256-bit value and the bits of every block
of the chain decode to a target not above the ceiling, a compact value returned
by `GetNextWorkRequired` decodes to a target not above the ceiling. -/
theorem GetNextWorkRequired_le_ceiling (p : CChainParams) (pindexLast : List CBlockIndex)
    (pblock : CBlockHeader) (nBits : Nat)
    (hLimit : p.bnProofOfWorkLimit < uint256Mod)
    (hChain : ∀ b ∈ pindexLast, (SetCompact b.nBits).value ≤ p.bnProofOfWorkLimit)
    (hRet : GetNextWorkRequired p pindexLast pblock = .ok nBits) :
    (SetCompact nBits).value ≤ p.bnProofOfWorkLimit := by
  have hCeil : (SetCompact (GetCompact p.bnProofOfWorkLimit)).value ≤ p.bnProofOfWorkLimit :=
    SetCompact_GetCompact_value_le hLimit
  unfold GetNextWorkRequired at hRet
  cases pindexLast with
  | nil =>
    simp only [Except.ok.injEq] at hRet
    rw [← hRet]
    exact hCeil
  | cons tip pprev =>
    simp only at hRet
    by_cases h1 : (activeRules p tip.nHeight).nInterval = 0
    · rw [if_pos h1] at hRet
      cases hRet
    rw [if_neg h1] at hRet
    by_cases h2 : (tip.nHeight + 1) % (activeRules p tip.nHeight).nInterval ≠ 0
    · rw [if_pos h2] at hRet
      split_ifs at hRet <;> simp only [Except.ok.injEq] at hRet <;> rw [← hRet]
      · exact hCeil
      · obtain ⟨b, hb, hEq⟩ := lastNonMinDifficultyBits_mem (activeRules p tip.nHeight).nInterval
          (GetCompact p.bnProofOfWorkLimit) pprev tip
        rw [hEq]
        exact hChain b hb
      · exact hChain tip (by simp)
    rw [if_neg h2] at hRet
    cases hw : walkBack (blockstogoback tip.nHeight
        (activeRules p tip.nHeight).nAveragingInterval).toNat (tip :: pprev) with
    | nil =>
      rw [hw] at hRet
      cases hRet
    | cons pindexFirst rest =>
      rw [hw] at hRet
      simp only at hRet
      by_cases h5 : (activeRules p tip.nHeight).nAveragingTargetTimespan = 0
      · rw [if_pos h5] at hRet
        cases hRet
      rw [if_neg h5] at hRet
      simp only [Except.ok.injEq] at hRet
      rw [← hRet]
      have hle := retargetValue_le p.bnProofOfWorkLimit (SetCompact tip.nBits).value
        (limitActualTimespan (tip.GetBlockTime - pindexFirst.GetBlockTime)
          (activeRules p tip.nHeight).nMinActualTimespan
          (activeRules p tip.nHeight).nMaxActualTimespan)
        (activeRules p tip.nHeight).nAveragingTargetTimespan
      exact le_trans (SetCompact_GetCompact_value_le (lt_of_le_of_lt hle hLimit)) hle

set_option maxRecDepth 100000 in
/-- C3 amended, at a main-network tip of generation 3 whose retarget is cut back
to the ceiling. -/
theorem GetNextWorkRequired_le_ceiling_witness :
    (SetCompact 0x1e0fffff).value ≤ mainParams.bnProofOfWorkLimit :=
  GetNextWorkRequired_le_ceiling mainParams
    [⟨426005, 1000250, 0x1e0fffff, 0⟩, ⟨426004, 1000200, 0x1e0fffff, 0⟩,
      ⟨426003, 1000160, 0x1e0fffff, 0⟩, ⟨426002, 1000120, 0x1e0fffff, 0⟩,
      ⟨426001, 1000080, 0x1e0fffff, 0⟩, ⟨426000, 1000040, 0x1e0fffff, 0⟩,
      ⟨425999, 1000000, 0x1e0fffff, 0⟩] ⟨1000290⟩ 0x1e0fffff
    (by decide) (by decide) (by decide!)

set_option maxRecDepth 100000 in
/-- C4 at the regression-test network: the tip of height 89 has bits of
bit-length 255 and the actual timespan 13350 exceeds the averaging target
timespan 3600; the pre-shifted product leaves 256 bits and the value returned,
`0x1f1230a1`, is not the compact form `0x207fffff` of the exact
`target * 13350 / 3600` cut back to the ceiling. -/
theorem GetNextWorkRequired_regtest_shift_guard :
    bits (SetCompact 0x207fffff).value = 255 ∧
      uint256Mod ≤ (SetCompact 0x207fffff).value / 2 * 13350 ∧
      GetNextWorkRequired regTestParams regTestChain ⟨1296688602 + 150 * 90⟩ = .ok 0x1f1230a1 ∧
      GetCompact (min regTestParams.bnProofOfWorkLimit
        ((SetCompact 0x207fffff).value * 13350 / 3600)) = 0x207fffff := by
  decide!

/-- C5: `CheckProofOfWork` is a total predicate; it accepts exactly when the
skip flag is set, or the bits decode without the negative flag, without the
overflow flag, to a non-zero target not above the ceiling, and the hash is not
above that target. -/
theorem CheckProofOfWork_iff (p : CChainParams) (hash nBits : Nat) :
    CheckProofOfWork p hash nBits = true ↔
      (p.fSkipProofOfWorkCheck = true ∨
        ((SetCompact nBits).fNegative = false ∧ (SetCompact nBits).fOverflow = false ∧
          (SetCompact nBits).value ≠ 0 ∧ (SetCompact nBits).value ≤ p.bnProofOfWorkLimit ∧
          hash ≤ (SetCompact nBits).value)) := by
  unfold CheckProofOfWork
  by_cases hs : p.fSkipProofOfWorkCheck = true
  · simp [hs]
  · simp only [hs, if_false, false_or, Bool.false_eq_true]
    cases hn : (SetCompact nBits).fNegative <;> cases ho : (SetCompact nBits).fOverflow <;>
      by_cases hz : (SetCompact nBits).value = 0 <;>
      by_cases hl : (SetCompact nBits).value ≤ p.bnProofOfWorkLimit <;>
      by_cases hh : hash ≤ (SetCompact nBits).value <;>
      simp [hz, hl, hh, not_le.1, Nat.not_lt.2]

/-- A target decoded without the overflow flag is followed by a 256-bit value. -/
theorem SetCompact_succ_lt {nBits : Nat} (hOvf : (SetCompact nBits).fOverflow = false) :
    (SetCompact nBits).value + 1 < uint256Mod := by
  have hw : nBits % 2 ^ 23 < 2 ^ 23 := Nat.mod_lt _ (by positivity)
  have h23 : (2 : Nat) ^ 23 + 1 < uint256Mod := by decide
  unfold SetCompact at hOvf ⊢
  simp only [decide_eq_false_iff_not, not_and, not_le] at hOvf ⊢
  split_ifs with h
  · have h2 : nBits % 2 ^ 23 / 2 ^ (8 * (3 - nBits / 2 ^ 24)) ≤ nBits % 2 ^ 23 :=
      Nat.div_le_self _ _
    omega
  · have hlt := hOvf (by omega)
    rw [Nat.mod_eq_of_lt hlt]
    have hdvd : 2 ∣ nBits % 2 ^ 23 * 2 ^ (8 * (nBits / 2 ^ 24 - 3)) := by
      apply Dvd.dvd.mul_left
      exact dvd_pow_self 2 (by omega)
    have hodd : ¬ 2 ∣ uint256Mod - 1 := by decide
    have hne : nBits % 2 ^ 23 * 2 ^ (8 * (nBits / 2 ^ 24 - 3)) ≠ uint256Mod - 1 := by
      intro e
      rw [e] at hdvd
      exact hodd hdvd
    omega

/-- The work of a valid target `t`: `~t / (t + 1) + 1` does not wrap and is
`2 ^ 256 / (t + 1)`. -/
theorem GetBlockProof_of_valid (block : CBlockIndex)
    (hNeg : (SetCompact block.nBits).fNegative = false)
    (hOvf : (SetCompact block.nBits).fOverflow = false)
    (hNz : (SetCompact block.nBits).value ≠ 0) :
    GetBlockProof block = .ok (2 ^ 256 / ((SetCompact block.nBits).value + 1)) ∧
      (uint256Mod - 1 - (SetCompact block.nBits).value) / ((SetCompact block.nBits).value + 1) + 1
        = 2 ^ 256 / ((SetCompact block.nBits).value + 1) ∧
      2 ^ 256 / ((SetCompact block.nBits).value + 1) < uint256Mod ∧
      1 ≤ 2 ^ 256 / ((SetCompact block.nBits).value + 1) := by
  have hlt := SetCompact_succ_lt hOvf
  unfold GetBlockProof
  simp only [hNeg, hOvf, Bool.or_self, Bool.false_or, beq_iff_eq]
  generalize (SetCompact block.nBits).value = t at hNz hlt ⊢
  have hM : uint256Mod = 2 ^ 256 := rfl
  have hdiv : (uint256Mod - 1 - t) / (t + 1) + 1 = 2 ^ 256 / (t + 1) := by
    rw [← hM, Nat.div_eq_sub_div (by omega : 0 < t + 1) (by omega : t + 1 ≤ uint256Mod)]
    congr 2
    omega
  have hone : 1 ≤ 2 ^ 256 / (t + 1) := by
    rw [← hM, Nat.one_le_div_iff (by omega)]
    omega
  have hsmall : 2 ^ 256 / (t + 1) < uint256Mod := by
    rw [← hM]
    exact Nat.div_lt_self (by omega) (by omega)
  refine ⟨?_, hdiv, hsmall, hone⟩
  simp only [hNz, if_false, Nat.mod_eq_of_lt hlt, Nat.succ_ne_zero, hdiv,
    Nat.mod_eq_of_lt hsmall]

/-- C7: for a block whose bits decode to a valid target `t` (no negative flag, no
overflow flag, not zero), `t + 1` and the final `+ 1` stay below `2 ^ 256`, and
`GetBlockProof` returns `~t / (t + 1) + 1`, which is the exact
`2 ^ 256 / (t + 1)`. -/
theorem GetBlockProof_valid_target (block : CBlockIndex)
    (hNeg : (SetCompact block.nBits).fNegative = false)
    (hOvf : (SetCompact block.nBits).fOverflow = false)
    (hNz : (SetCompact block.nBits).value ≠ 0) :
    (SetCompact block.nBits).value + 1 < uint256Mod ∧
      (uint256Mod - 1 - (SetCompact block.nBits).value) / ((SetCompact block.nBits).value + 1) + 1
        < uint256Mod ∧
      GetBlockProof block = .ok ((uint256Mod - 1 - (SetCompact block.nBits).value) /
        ((SetCompact block.nBits).value + 1) + 1) ∧
      (uint256Mod - 1 - (SetCompact block.nBits).value) / ((SetCompact block.nBits).value + 1) + 1
        = 2 ^ 256 / ((SetCompact block.nBits).value + 1) := by
  obtain ⟨h1, h2, h3, _⟩ := GetBlockProof_of_valid block hNeg hOvf hNz
  refine ⟨SetCompact_succ_lt hOvf, ?_, ?_, h2⟩
  · rw [h2]
    exact h3
  · rw [h2]
    exact h1

/-- C7 at the bits of the main-network ceiling. -/
theorem GetBlockProof_valid_target_witness :
    GetBlockProof ⟨0, 1371488396, 0x1e0fffff, 0⟩ =
      .ok ((uint256Mod - 1 - (SetCompact 0x1e0fffff).value) /
        ((SetCompact 0x1e0fffff).value + 1) + 1) :=
  (GetBlockProof_valid_target ⟨0, 1371488396, 0x1e0fffff, 0⟩
    (by decide) (by decide) (by decide)).2.2.1

/-- C9: `GetBlockProof` always returns a value, and the value is zero exactly
when the bits decode with the negative flag, with the overflow flag, or to a
zero target. -/
theorem GetBlockProof_zero_iff (block : CBlockIndex) :
    ∃ w, GetBlockProof block = .ok w ∧
      (w = 0 ↔ ((SetCompact block.nBits).fNegative = true ∨
        (SetCompact block.nBits).fOverflow = true ∨ (SetCompact block.nBits).value = 0)) := by
  by_cases hv : (SetCompact block.nBits).fNegative = true ∨
      (SetCompact block.nBits).fOverflow = true ∨ (SetCompact block.nBits).value = 0
  · refine ⟨0, ?_, by simp [hv]⟩
    unfold GetBlockProof
    rcases hv with h | h | h <;> simp [h]
  · simp only [not_or, Bool.not_eq_true] at hv
    obtain ⟨hNeg, hOvf, hNz⟩ := hv
    obtain ⟨h1, _, _, h4⟩ := GetBlockProof_of_valid block hNeg hOvf hNz
    refine ⟨_, h1, ?_⟩
    simp only [hNeg, hOvf, hNz, Bool.false_eq_true, or_self, iff_false]
    omega

/-- Decoding after encoding is monotone on 256-bit values. -/
theorem SetCompact_GetCompact_mono {t1 t2 : Nat} (h12 : t1 ≤ t2) (h2 : t2 < uint256Mod) :
    (SetCompact (GetCompact t1)).value ≤ (SetCompact (GetCompact t2)).value := by
  have h1 : t1 < uint256Mod := lt_of_le_of_lt h12 h2
  rw [SetCompact_GetCompact h1, SetCompact_GetCompact h2]
  simp only
  have hb : bits t1 ≤ bits t2 := bits_mono h2 h12
  by_cases hk : droppedBits t1 = droppedBits t2
  · rw [hk]
    exact Nat.mul_le_mul_right _ (Nat.div_le_div_right h12)
  · have hklt : droppedBits t1 < droppedBits t2 := by
      unfold droppedBits at hk ⊢
      omega
    -- a power of two lies between the two values
    have hq : bits t1 < 8 * (bits t2 / 8) := by
      unfold droppedBits at hklt
      omega
    have hlow : t1 < 2 ^ (8 * (bits t2 / 8) - 1) := (bits_le_iff h1 _).1 (by omega)
    have hhigh : 2 ^ (8 * (bits t2 / 8) - 1) ≤ t2 := two_pow_le_of_lt_bits h2 (by omega)
    have hsplit : 2 ^ (8 * (bits t2 / 8) - 1) =
        2 ^ (8 * (bits t2 / 8) - 1 - droppedBits t2) * 2 ^ droppedBits t2 := by
      rw [← pow_add]
      congr 1
      unfold droppedBits
      omega
    have hpos : 0 < 2 ^ droppedBits t2 := by positivity
    have hge : 2 ^ (8 * (bits t2 / 8) - 1) ≤ t2 / 2 ^ droppedBits t2 * 2 ^ droppedBits t2 := by
      rw [hsplit]
      apply Nat.mul_le_mul_right
      rw [Nat.le_div_iff_mul_le hpos, ← hsplit]
      exact hhigh
    have hle : t1 / 2 ^ droppedBits t1 * 2 ^ droppedBits t1 ≤ t1 := Nat.div_mul_le_self _ _
    omega

/-- A non-zero 256-bit value is encoded to bits that decode to a valid target. -/
theorem SetCompact_GetCompact_ne_zero {t : Nat} (h0 : 0 < t) (ht : t < uint256Mod) :
    (SetCompact (GetCompact t)).value ≠ 0 := by
  rw [SetCompact_GetCompact ht]
  simp only
  have hbits : 0 < bits t := by
    have := lt_two_pow_bits ht
    rcases Nat.eq_zero_or_pos (bits t) with h | h
    · rw [h] at this
      omega
    · exact h
  have hk : droppedBits t < bits t := by
    unfold droppedBits
    omega
  have hge : 2 ^ droppedBits t ≤ t := two_pow_le_of_lt_bits ht hk
  have hpos : 0 < 2 ^ droppedBits t := by positivity
  have : 0 < t / 2 ^ droppedBits t := Nat.div_pos hge hpos
  positivity

/-- C8, as stated, fails: the targets `2 ^ 255 < 2 ^ 255 + 2 ^ 240` are both
encoded exactly and decoded as valid targets, and both blocks have work 1. -/
theorem GetBlockProof_strict_counterexample :
    (SetCompact (GetCompact (2 ^ 255))) = ⟨2 ^ 255, false, false⟩ ∧
      (SetCompact (GetCompact (2 ^ 255 + 2 ^ 240))) = ⟨2 ^ 255 + 2 ^ 240, false, false⟩ ∧
      GetBlockProof ⟨0, 0, GetCompact (2 ^ 255), 0⟩ = .ok 1 ∧
      GetBlockProof ⟨0, 0, GetCompact (2 ^ 255 + 2 ^ 240), 0⟩ = .ok 1 := by
  decide!

/-- C8, amended: for 256-bit targets `0 < t1 < t2` the bits `GetCompact t1` and
`GetCompact t2` decode to valid targets, and the work of a block with bits
`GetCompact t1` is at least the work of a block with bits `GetCompact t2`. -/
theorem GetBlockProof_antitone (block1 block2 : CBlockIndex) (t1 t2 : Nat)
    (hPos : 0 < t1) (hLt : t1 < t2) (hWidth : t2 < uint256Mod)
    (hBits1 : block1.nBits = GetCompact t1) (hBits2 : block2.nBits = GetCompact t2) :
    ∃ w1 w2, GetBlockProof block1 = .ok w1 ∧ GetBlockProof block2 = .ok w2 ∧ w2 ≤ w1 := by
  have ht1 : t1 < uint256Mod := lt_trans hLt hWidth
  have hv1 := SetCompact_GetCompact ht1
  have hv2 := SetCompact_GetCompact hWidth
  have hn1 := SetCompact_GetCompact_ne_zero hPos ht1
  have hn2 := SetCompact_GetCompact_ne_zero (lt_trans hPos hLt) hWidth
  have hmono := SetCompact_GetCompact_mono (le_of_lt hLt) hWidth
  rw [← hBits1] at hv1 hn1 hmono
  rw [← hBits2] at hv2 hn2 hmono
  obtain ⟨e1, _, _, _⟩ := GetBlockProof_of_valid block1
    (by rw [hv1]) (by rw [hv1]) hn1
  obtain ⟨e2, _, _, _⟩ := GetBlockProof_of_valid block2
    (by rw [hv2]) (by rw [hv2]) hn2
  exact ⟨_, _, e1, e2, Nat.div_le_div_left (by omega) (by omega)⟩

set_option maxRecDepth 100000 in
/-- C8 amended, at the targets `2 ^ 200 < 2 ^ 220`. -/
theorem GetBlockProof_antitone_witness :
    ∃ w1 w2, GetBlockProof ⟨0, 0, GetCompact (2 ^ 200), 0⟩ = .ok w1 ∧
      GetBlockProof ⟨1, 0, GetCompact (2 ^ 220), 0⟩ = .ok w2 ∧ w2 ≤ w1 :=
  GetBlockProof_antitone ⟨0, 0, GetCompact (2 ^ 200), 0⟩ ⟨1, 0, GetCompact (2 ^ 220), 0⟩
    (2 ^ 200) (2 ^ 220) (by decide) (by decide) (by decide) rfl rfl

/-- C6: a value `x` that `SetCompact` produces from a compact input (of 32 bits,
or of any width) is recovered by decoding its encoding:
`SetCompact (GetCompact x)` has the value `x`. -/
theorem SetCompact_GetCompact_round_trip (x nCompact : Nat)
    (hx : (SetCompact nCompact).value = x) :
    (SetCompact (GetCompact x)).value = x := by
  have := SetCompact_GetCompact_of_decoded nCompact
  rw [hx] at this
  rw [this]

/-- C6 at the compact form of the main-network ceiling. -/
theorem SetCompact_GetCompact_round_trip_witness :
    (SetCompact (GetCompact (0xfffff * 2 ^ 216))).value = 0xfffff * 2 ^ 216 :=
  SetCompact_GetCompact_round_trip (0xfffff * 2 ^ 216) 0x1e0fffff (by decide)

/-- C10: `CheckBlock` rejects exactly when checkpoints are enabled and the table
of the selected network has, at the height, an entry other than the hash. On
the main network with checkpoints enabled the entry of height 8002 is accepted,
every other hash is rejected at 8002, and every hash is accepted at 8003. -/
theorem CheckBlock_iff :
    (∀ (fCheckpoints fTestNet : Bool) (nHeight : Int) (hash : Nat),
      CheckBlock fCheckpoints fTestNet nHeight hash = false ↔
        (fCheckpoints = true ∧
          ∃ h, mapFind (Checkpoints fTestNet).mapCheckpoints nHeight = some h ∧ h ≠ hash)) ∧
    CheckBlock true false 8002
      0x73bc3b16d99bbf797f396c9532f80c3b73bb21304280de2efbc5edcb75739234 = true ∧
    (∀ hash : Nat, CheckBlock true false 8002 hash = false ↔
      hash ≠ 0x73bc3b16d99bbf797f396c9532f80c3b73bb21304280de2efbc5edcb75739234) ∧
    (∀ hash : Nat, CheckBlock true false 8003 hash = true) := by
  have h8002 : mapFind (Checkpoints false).mapCheckpoints 8002 =
      some 0x73bc3b16d99bbf797f396c9532f80c3b73bb21304280de2efbc5edcb75739234 := by decide
  have h8003 : mapFind (Checkpoints false).mapCheckpoints 8003 = none := by decide
  refine ⟨?_, ?_, ?_, ?_⟩
  · intro fCheckpoints fTestNet nHeight hash
    unfold CheckBlock
    cases fCheckpoints
    · simp
    · cases hf : mapFind (Checkpoints fTestNet).mapCheckpoints nHeight with
      | none => simp
      | some h =>
        simp only [Bool.not_true, Bool.false_eq_true, if_false, beq_eq_false_iff_ne, ne_eq,
          true_and, Option.some.injEq, exists_eq_left']
        exact ⟨fun h1 h2 => h1 h2.symm, fun h1 h2 => h1 h2.symm⟩
  · unfold CheckBlock
    simp [h8002]
  · intro hash
    unfold CheckBlock
    simp [h8002]
  · intro hash
    unfold CheckBlock
    simp [h8003]

theorem lastCheckpointLoop_eq_none {α : Type} (m : List (Nat × α)) (l : List (Int × Nat)) :
    lastCheckpointLoop m l = none ↔ ∀ e ∈ l, blockIndexFind m e.2 = none := by
  induction l with
  | nil => simp [lastCheckpointLoop]
  | cons e rest ih =>
    obtain ⟨h, hash⟩ := e
    unfold lastCheckpointLoop
    cases hf : blockIndexFind m hash with
    | none => simp [hf, ih]
    | some p => simp [hf]

theorem lastCheckpointLoop_eq_some {α : Type} (m : List (Nat × α)) (l : List (Int × Nat))
    (p : α) (hp : lastCheckpointLoop m l = some p) :
    ∃ pre e post, l = pre ++ e :: post ∧ blockIndexFind m e.2 = some p ∧
      ∀ e' ∈ pre, blockIndexFind m e'.2 = none := by
  induction l with
  | nil => simp [lastCheckpointLoop] at hp
  | cons e rest ih =>
    obtain ⟨h, hash⟩ := e
    unfold lastCheckpointLoop at hp
    cases hf : blockIndexFind m hash with
    | none =>
      rw [hf] at hp
      obtain ⟨pre, e, post, hl, he, hpre⟩ := ih hp
      refine ⟨(h, hash) :: pre, e, post, by rw [hl]; rfl, he, ?_⟩
      intro e' he'
      rcases List.mem_cons.1 he' with rfl | hmem
      · exact hf
      · exact hpre e' hmem
    | some q =>
      rw [hf] at hp
      simp only [Option.some.injEq] at hp
      subst hp
      exact ⟨[], (h, hash), rest, rfl, hf, by simp⟩

/-- The scan of a table with increasing keys from the greatest key down either
finds no hash of the table in the block index, or returns the pointer stored
under the hash of the entry of greatest key among those whose hash is a key. -/
theorem lastCheckpointLoop_reverse {α : Type} (m : List (Nat × α)) (table : MapCheckpoints)
    (hSorted : KeysIncreasing table) :
    (lastCheckpointLoop m table.reverse = none ∧ ∀ e ∈ table, blockIndexFind m e.2 = none) ∨
      ∃ e ∈ table, ∃ p, blockIndexFind m e.2 = some p ∧
        lastCheckpointLoop m table.reverse = some p ∧
        ∀ e' ∈ table, blockIndexFind m e'.2 ≠ none → e'.1 ≤ e.1 := by
  cases hr : lastCheckpointLoop m table.reverse with
  | none =>
    left
    refine ⟨rfl, ?_⟩
    intro e he
    exact (lastCheckpointLoop_eq_none m table.reverse).1 hr e (List.mem_reverse.2 he)
  | some p =>
    right
    obtain ⟨pre, e, post, hl, he, hpre⟩ := lastCheckpointLoop_eq_some m table.reverse p hr
    have hmem : ∀ x, x ∈ table ↔ x ∈ pre ∨ x = e ∨ x ∈ post := by
      intro x
      rw [← List.mem_reverse, hl]
      simp
    have hpw : (pre ++ e :: post).Pairwise fun a b => b.1 < a.1 := by
      rw [← hl]
      exact List.pairwise_reverse.2 hSorted
    have hpost : ∀ x ∈ post, x.1 < e.1 := by
      have h2 := (List.pairwise_append.1 hpw).2.1
      exact (List.pairwise_cons.1 h2).1
    refine ⟨e, (hmem e).2 (Or.inr (Or.inl rfl)), p, he, rfl, ?_⟩
    intro e' he' hne
    rcases (hmem e').1 he' with h1 | h1 | h1
    · exact absurd (hpre e' h1) hne
    · rw [h1]
    · exact le_of_lt (hpost e' h1)

theorem keysIncreasing_tables (fTestNet : Bool) :
    KeysIncreasing (Checkpoints fTestNet).mapCheckpoints := by
  cases fTestNet <;> unfold KeysIncreasing <;> decide

/-- C11: with checkpoints disabled `GetLastCheckpoint` returns null. With
checkpoints enabled it returns null and no checkpoint hash is a key of
`mapBlockIndex`, or it returns the entry stored under the hash of a checkpoint
whose hash is a key and whose height is the greatest among the checkpoints
whose hash is a key. -/
theorem GetLastCheckpoint_spec {α : Type} (fTestNet : Bool) (mapBlockIndex : List (Nat × α)) :
    GetLastCheckpoint false fTestNet mapBlockIndex = none ∧
      ((GetLastCheckpoint true fTestNet mapBlockIndex = none ∧
          ∀ e ∈ (Checkpoints fTestNet).mapCheckpoints,
            blockIndexFind mapBlockIndex e.2 = none) ∨
        ∃ e ∈ (Checkpoints fTestNet).mapCheckpoints, ∃ pindex,
          blockIndexFind mapBlockIndex e.2 = some pindex ∧
          GetLastCheckpoint true fTestNet mapBlockIndex = some pindex ∧
          ∀ e' ∈ (Checkpoints fTestNet).mapCheckpoints,
            blockIndexFind mapBlockIndex e'.2 ≠ none → e'.1 ≤ e.1) := by
  refine ⟨rfl, ?_⟩
  have h := lastCheckpointLoop_reverse mapBlockIndex (Checkpoints fTestNet).mapCheckpoints
    (keysIncreasing_tables fTestNet)
  simpa [GetLastCheckpoint] using h

theorem activeRules_main_generation1 (nHeight : Nat) (h : nHeight + 1 < 208440) :
    activeRules mainParams nHeight = ⟨90, 3600, 90, 900, 14400, 3600⟩ := by
  have hV2 : mainParams.nHeight_Version2 = 208440 := rfl
  unfold activeRules
  rw [if_pos (by rw [hV2]; omega)]
  decide

theorem activeRules_main_generation2 (nHeight : Nat) (h2 : 208440 ≤ nHeight + 1)
    (h3 : nHeight + 1 < 426000) :
    activeRules mainParams nHeight = ⟨15, 600, 15, 150, 2400, 600⟩ := by
  have hV2 : mainParams.nHeight_Version2 = 208440 := rfl
  have hV3 : mainParams.nHeight_Version3 = 426000 := rfl
  unfold activeRules
  rw [if_neg (by rw [hV2]; omega), if_pos (by rw [hV3]; omega)]
  decide

theorem activeRules_main_generation3 (nHeight : Nat) (h3 : 426000 ≤ nHeight + 1) :
    activeRules mainParams nHeight = ⟨1, 40, 6, 235, 247, 240⟩ := by
  have hV2 : mainParams.nHeight_Version2 = 208440 := rfl
  have hV3 : mainParams.nHeight_Version3 = 426000 := rfl
  unfold activeRules
  rw [if_neg (by rw [hV2]; omega), if_neg (by rw [hV3]; omega)]
  decide

/-- C12: the rules of `GetNextWorkRequired` depend on the tip through
`n = nHeight + 1` only. With the activation heights in order, generation 1 is
selected when `n < nHeight_Version2`, generation 2 when
`nHeight_Version2 <= n < nHeight_Version3`, generation 3 when
`n >= nHeight_Version3`, each with the truncating bounds of the specification.
On the main network the rules (interval, target timespan, averaging window,
minimum, maximum, averaging timespan) are (90, 3600, 90, 900, 14400, 3600)
below 208440, (15, 600, 15, 150, 2400, 600) from 208440 to below 426000, and
(1, 40, 6, 235, 247, 240) from 426000. -/
theorem activeRules_generations (p : CChainParams) (nHeight : Nat)
    (hOrder : p.nHeight_Version2 ≤ p.nHeight_Version3) :
    ((nHeight : Int) + 1 < p.nHeight_Version2 →
        activeRules p nHeight = specGenerationRules p.nInterval_Version1
          p.nTargetTimespan_Version1 p.nAveragingInterval_Version1
          p.nAveragingTargetTimespan_Version1 p.nMaxAdjustUp_Version1
          p.nMaxAdjustDown_Version1) ∧
      (p.nHeight_Version2 ≤ (nHeight : Int) + 1 → (nHeight : Int) + 1 < p.nHeight_Version3 →
        activeRules p nHeight = specGenerationRules p.nInterval_Version2
          p.nTargetTimespan_Version2 p.nAveragingInterval_Version2
          p.nAveragingTargetTimespan_Version2 p.nMaxAdjustUp_Version2
          p.nMaxAdjustDown_Version2) ∧
      (p.nHeight_Version3 ≤ (nHeight : Int) + 1 →
        activeRules p nHeight = specGenerationRules p.nInterval_Version3
          p.nTargetTimespan_Version3 p.nAveragingInterval_Version3
          p.nAveragingTargetTimespan_Version3 p.nMaxAdjustUp_Version3
          p.nMaxAdjustDown_Version3) ∧
      (nHeight + 1 < 208440 →
        activeRules mainParams nHeight = ⟨90, 3600, 90, 900, 14400, 3600⟩) ∧
      (208440 ≤ nHeight + 1 → nHeight + 1 < 426000 →
        activeRules mainParams nHeight = ⟨15, 600, 15, 150, 2400, 600⟩) ∧
      (426000 ≤ nHeight + 1 →
        activeRules mainParams nHeight = ⟨1, 40, 6, 235, 247, 240⟩) := by
  refine ⟨?_, ?_, ?_, activeRules_main_generation1 nHeight,
    activeRules_main_generation2 nHeight, activeRules_main_generation3 nHeight⟩
  · intro h1
    unfold activeRules specGenerationRules minActualTimespan maxActualTimespan
    rw [if_pos h1]
  · intro h2 h3
    unfold activeRules specGenerationRules minActualTimespan maxActualTimespan
    rw [if_neg (by omega), if_pos h3]
  · intro h3
    unfold activeRules specGenerationRules minActualTimespan maxActualTimespan
    rw [if_neg (by omega), if_neg (by omega)]

/-- C12 on the main network at the tip of height 426005. -/
theorem activeRules_generations_witness :
    activeRules mainParams 426005 = ⟨1, 40, 6, 235, 247, 240⟩ :=
  (activeRules_generations mainParams 426005 (by decide)).2.2.2.2.2 (by decide)

/-- The rules of the main network are one of the three generations. -/
theorem activeRules_main_cases (nHeight : Nat) :
    activeRules mainParams nHeight = ⟨90, 3600, 90, 900, 14400, 3600⟩ ∨
      activeRules mainParams nHeight = ⟨15, 600, 15, 150, 2400, 600⟩ ∨
      activeRules mainParams nHeight = ⟨1, 40, 6, 235, 247, 240⟩ := by
  by_cases h2 : nHeight + 1 < 208440
  · exact Or.inl (activeRules_main_generation1 nHeight h2)
  · by_cases h3 : nHeight + 1 < 426000
    · exact Or.inr (Or.inl (activeRules_main_generation2 nHeight (by omega) h3))
    · exact Or.inr (Or.inr (activeRules_main_generation3 nHeight (by omega)))

/-- The test, regression-test and unit-test networks inherit the retarget rules
of the main network. -/
theorem activeRules_networks (p : CChainParams)
    (hp : p = mainParams ∨ p = testNetParams ∨ p = regTestParams ∨ p = unitTestParams)
    (nHeight : Nat) : activeRules p nHeight = activeRules mainParams nHeight := by
  rcases hp with rfl | rfl | rfl | rfl <;> rfl

/-- On every network of chainparams.cpp and at every height the interval is
positive, the averaging target timespan is not zero, the doubled target
timespan fits 32 bits, the averaging interval fits an `int`, and the minimum
actual timespan is not above the maximum. -/
theorem activeRules_networks_sound (p : CChainParams)
    (hp : p = mainParams ∨ p = testNetParams ∨ p = regTestParams ∨ p = unitTestParams)
    (nHeight : Nat) :
    0 < (activeRules p nHeight).nInterval ∧
      (activeRules p nHeight).nAveragingTargetTimespan ≠ 0 ∧
      2 * (activeRules p nHeight).nTargetTimespan < 4294967296 ∧
      (activeRules p nHeight).nAveragingInterval < 2147483648 ∧
      (activeRules p nHeight).nMinActualTimespan ≤ (activeRules p nHeight).nMaxActualTimespan := by
  rw [activeRules_networks p hp nHeight]
  rcases activeRules_main_cases nHeight with h | h | h <;> rw [h] <;> decide

theorem limitActualTimespan_eq_specClamp (t : Int) (lo hi : Nat) :
    limitActualTimespan t lo hi = specClamp t lo hi := by
  unfold limitActualTimespan specClamp
  simp only [min_def, max_def]
  split_ifs <;> omega

/-- A decoded target of more than 235 bits is even. -/
theorem SetCompact_value_even (nCompact : Nat) (h : 235 < bits (SetCompact nCompact).value) :
    2 ∣ (SetCompact nCompact).value := by
  obtain ⟨m, i, hm, hform⟩ := SetCompact_value_form nCompact
  have hx := SetCompact_value_lt nCompact
  have hbig : 2 ^ 235 ≤ (SetCompact nCompact).value := two_pow_le_of_lt_bits hx h
  rw [hform] at hbig ⊢
  rcases Nat.eq_zero_or_pos i with h0 | hpos
  · subst h0
    have h23 : (2 : Nat) ^ 23 ≤ 2 ^ 235 := Nat.pow_le_pow_right (by norm_num) (by norm_num)
    simp only [Nat.mul_zero, pow_zero, Nat.mul_one] at hbig
    omega
  · exact Dvd.dvd.mul_left (dvd_pow_self 2 (by omega)) m

/-- A retarget with the actual timespan equal to the averaging target timespan
leaves a target unchanged when nothing wraps and nothing is lost in the shift. -/
theorem retargetValue_same (L x a : Nat) (ha : 0 < a) (hx : x ≤ L)
    (hmul : x * a < uint256Mod) (heven : 235 < bits x → 2 ∣ x) :
    retargetValue L x (a : Int) a = x := by
  have hxlt : x < uint256Mod := lt_of_le_of_lt (Nat.le_mul_of_pos_right x ha) hmul
  unfold retargetValue
  simp only [gt_iff_lt, Int.toNat_ofNat]
  by_cases hs : 235 < bits x
  · have hhalf : x / 2 * a < uint256Mod :=
      lt_of_le_of_lt (Nat.mul_le_mul_right a (Nat.div_le_self x 2)) hmul
    have hback : x / 2 * 2 = x := Nat.div_mul_cancel (heven hs)
    simp only [hs, decide_True, if_true, Nat.mod_eq_of_lt hhalf, Nat.mul_div_cancel _ ha, hback,
      Nat.mod_eq_of_lt hxlt]
    rw [if_neg (by omega)]
  · simp only [hs, decide_False, if_false, Bool.false_eq_true, Nat.mod_eq_of_lt hmul,
      Nat.mul_div_cancel _ ha]
    rw [if_neg (by omega)]

/-- C13: under the main-network rules of generation 1, at a retarget boundary
whose reference block is reached, when the clamped actual timespan is 3600 and
the bits of the tip are the canonical compact form of a target not above the
ceiling, `GetNextWorkRequired` returns the bits of the tip. -/
theorem GetNextWorkRequired_main_unchanged (tip : CBlockIndex) (pprev : List CBlockIndex)
    (pblock : CBlockHeader)
    (hGeneration : tip.nHeight + 1 < 208440)
    (hBoundary : (tip.nHeight + 1) % 90 = 0)
    (hFirst : (blockstogoback tip.nHeight 90).toNat < (tip :: pprev).length)
    (hSpan : specClamp (tip.GetBlockTime -
      ((tip :: pprev).get ⟨(blockstogoback tip.nHeight 90).toNat, hFirst⟩).GetBlockTime)
      900 14400 = 3600)
    (hCanonical : GetCompact (SetCompact tip.nBits).value = tip.nBits)
    (hCeiling : (SetCompact tip.nBits).value ≤ mainParams.bnProofOfWorkLimit) :
    GetNextWorkRequired mainParams (tip :: pprev) pblock = .ok tip.nBits := by
  have hL : mainParams.bnProofOfWorkLimit < 2 ^ 236 := by decide
  have hroom : (2 : Nat) ^ 236 * 3600 ≤ uint256Mod := by decide
  have hmul : (SetCompact tip.nBits).value * 3600 < uint256Mod :=
    lt_of_lt_of_le (Nat.mul_lt_mul_of_pos_right (lt_of_le_of_lt hCeiling hL) (by norm_num)) hroom
  have hsame := retargetValue_same mainParams.bnProofOfWorkLimit (SetCompact tip.nBits).value
    3600 (by norm_num) hCeiling hmul (SetCompact_value_even tip.nBits)
  unfold GetNextWorkRequired
  simp only [activeRules_main_generation1 tip.nHeight hGeneration, hBoundary,
    walkBack_of_lt hFirst, limitActualTimespan_eq_specClamp, hSpan]
  simp only [Nat.cast_ofNat] at hsame
  simp only [hsame, hCanonical]
  simp

set_option maxRecDepth 100000 in
/-- C13 at the worked example of the specification: the tip of height 89 with
the bits `0x1e0fffff` of the compact ceiling, 3600 seconds after the genesis
block; 89 links lead back to the genesis block and the bits are returned. -/
theorem GetNextWorkRequired_main_unchanged_witness :
    (blockstogoback 89 90).toNat = 89 ∧
      walkBack 89 (mainFirstPeriodTip :: mainFirstPeriodPrev) =
        [⟨0, 1371488396, 0x1e0fffff, 0⟩] ∧
      GetNextWorkRequired mainParams (mainFirstPeriodTip :: mainFirstPeriodPrev)
        ⟨1371488396 + 3640⟩ = .ok 0x1e0fffff :=
  ⟨by decide, by decide,
    GetNextWorkRequired_main_unchanged mainFirstPeriodTip mainFirstPeriodPrev
      ⟨1371488396 + 3640⟩ (by decide) (by decide) (by decide) (by decide) (by decide!)
      (by decide)⟩

/-- The `int blockstogoback` in terms of the specification when the averaging
interval fits an `int`. -/
theorem blockstogoback_eq_spec (nHeight nAveragingInterval : Nat)
    (hFits : nAveragingInterval < 2147483648) :
    (blockstogoback nHeight nAveragingInterval).toNat =
      specBlocksToGoBack nHeight nAveragingInterval := by
  unfold blockstogoback specBlocksToGoBack toInt32
  by_cases h : nHeight + 1 = nAveragingInterval
  · have hpos : 1 ≤ nAveragingInterval := by omega
    simp only [h, ne_eq, not_true_eq_false, if_false, if_true]
    have e : (nAveragingInterval + 4294967295) % 4294967296 % 4294967296 =
        nAveragingInterval - 1 := by omega
    rw [e, if_pos (by omega)]
    simp
  · simp only [h, ne_eq, not_false_eq_true, if_true, if_false]
    have e : nAveragingInterval % 4294967296 = nAveragingInterval := by omega
    rw [e, if_pos (by omega)]
    simp

/-- On a chain with consecutive heights the block `k` links behind the tip is
`k` lower than the tip. -/
theorem height_of_drop (chain : List CBlockIndex) (hHeights : ConsecutiveHeights chain) :
    ∀ (k : Nat) (tip first : CBlockIndex) (rest : List CBlockIndex),
      chain.head? = some tip → chain.drop k = first :: rest →
      first.nHeight + k = tip.nHeight := by
  induction chain with
  | nil =>
    intro k tip first rest hhead
    simp at hhead
  | cons b t ih =>
    intro k tip first rest hhead hdrop
    simp only [List.head?_cons, Option.some.injEq] at hhead
    subst hhead
    cases k with
    | zero =>
      simp only [List.drop_zero, List.cons.injEq] at hdrop
      rw [← hdrop.1]
      rfl
    | succ j =>
      simp only [List.drop_succ_cons] at hdrop
      cases t with
      | nil => simp at hdrop
      | cons c u =>
        unfold ConsecutiveHeights at hHeights ih
        simp only [consecutiveHeights, Bool.and_eq_true, beq_iff_eq] at hHeights
        have := ih hHeights.2 j c first rest rfl hdrop
        omega

/-- C14: in the retarget branch, with an averaging interval that fits an `int`
and a chain that is long enough, the reference block `first` is the block
reached from the tip by `nAveragingInterval` predecessor links, or by
`nAveragingInterval - 1` links when `nHeight + 1 == nAveragingInterval`, and the
value returned is computed from its time; on a chain with consecutive heights
`first` is that many blocks below the tip, which is height 0 in the first-ever
retarget. -/
theorem GetNextWorkRequired_reference_block (p : CChainParams) (tip : CBlockIndex)
    (pprev : List CBlockIndex) (pblock : CBlockHeader)
    (hBoundary : (tip.nHeight + 1) % (activeRules p tip.nHeight).nInterval = 0)
    (hT : (activeRules p tip.nHeight).nAveragingTargetTimespan ≠ 0)
    (hFits : (activeRules p tip.nHeight).nAveragingInterval < 2147483648)
    (hLong : specBlocksToGoBack tip.nHeight (activeRules p tip.nHeight).nAveragingInterval
      ≤ pprev.length)
    (hHeights : ConsecutiveHeights (tip :: pprev)) :
    ∃ first rest,
      (tip :: pprev).drop
          (specBlocksToGoBack tip.nHeight (activeRules p tip.nHeight).nAveragingInterval) =
        first :: rest ∧
      (blockstogoback tip.nHeight (activeRules p tip.nHeight).nAveragingInterval).toNat =
        specBlocksToGoBack tip.nHeight (activeRules p tip.nHeight).nAveragingInterval ∧
      GetNextWorkRequired p (tip :: pprev) pblock =
        .ok (GetCompact (retargetValue p.bnProofOfWorkLimit (SetCompact tip.nBits).value
          (limitActualTimespan (tip.GetBlockTime - first.GetBlockTime)
            (activeRules p tip.nHeight).nMinActualTimespan
            (activeRules p tip.nHeight).nMaxActualTimespan)
          (activeRules p tip.nHeight).nAveragingTargetTimespan)) ∧
      first.nHeight +
          specBlocksToGoBack tip.nHeight (activeRules p tip.nHeight).nAveragingInterval =
        tip.nHeight ∧
      (tip.nHeight + 1 ≠ (activeRules p tip.nHeight).nAveragingInterval →
        first.nHeight = tip.nHeight - (activeRules p tip.nHeight).nAveragingInterval) ∧
      (tip.nHeight + 1 = (activeRules p tip.nHeight).nAveragingInterval →
        first.nHeight = 0) := by
  have hI : (activeRules p tip.nHeight).nInterval ≠ 0 := by
    intro h0
    rw [h0, Nat.mod_zero] at hBoundary
    omega
  have hgo := blockstogoback_eq_spec tip.nHeight (activeRules p tip.nHeight).nAveragingInterval
    hFits
  have hlt : specBlocksToGoBack tip.nHeight (activeRules p tip.nHeight).nAveragingInterval
      < (tip :: pprev).length := by
    simp only [List.length_cons]
    omega
  have hdrop := List.drop_eq_getElem_cons hlt
  have hheight := height_of_drop (tip :: pprev) hHeights _ tip _ _ rfl hdrop
  refine ⟨_, _, hdrop, hgo, ?_, hheight, ?_, ?_⟩
  · unfold GetNextWorkRequired
    simp only [hI, hBoundary, hT, if_false, ne_eq, not_true_eq_false, hgo, walkBack_eq_drop,
      hdrop]
  · intro hne
    have hs : specBlocksToGoBack tip.nHeight (activeRules p tip.nHeight).nAveragingInterval =
        (activeRules p tip.nHeight).nAveragingInterval := by
      unfold specBlocksToGoBack
      rw [if_neg hne]
    omega
  · intro heq
    have hs : specBlocksToGoBack tip.nHeight (activeRules p tip.nHeight).nAveragingInterval =
        (activeRules p tip.nHeight).nAveragingInterval - 1 := by
      unfold specBlocksToGoBack
      rw [if_pos heq]
    omega

set_option maxRecDepth 100000 in
/-- C14 at the first retarget of the main network (tip of height 89): 89 links
lead to the genesis block. -/
theorem GetNextWorkRequired_reference_block_witness :
    ∃ first rest,
      (mainFirstPeriodTip :: mainFirstPeriodPrev).drop 89 = first :: rest ∧
      (blockstogoback 89 90).toNat = 89 ∧
      GetNextWorkRequired mainParams (mainFirstPeriodTip :: mainFirstPeriodPrev)
          ⟨1371488396 + 3640⟩ =
        .ok (GetCompact (retargetValue mainParams.bnProofOfWorkLimit
          (SetCompact 0x1e0fffff).value
          (limitActualTimespan (mainFirstPeriodTip.GetBlockTime - first.GetBlockTime) 900 14400)
          3600)) ∧
      first.nHeight + 89 = 89 ∧ (89 + 1 ≠ 90 → first.nHeight = 89 - 90) ∧
      (89 + 1 = 90 → first.nHeight = 0) :=
  GetNextWorkRequired_reference_block mainParams mainFirstPeriodTip mainFirstPeriodPrev
    ⟨1371488396 + 3640⟩ (by decide) (by decide) (by decide) (by decide)
    (by unfold ConsecutiveHeights; decide)

theorem walkBack_eq_nil_iff (n : Nat) (l : List CBlockIndex) :
    walkBack n l = [] ↔ l.length ≤ n := by
  rw [walkBack_eq_drop]
  exact List.drop_eq_nil_iff

/-- C15: in the retarget branch (with a non-zero averaging target timespan), when
the tip has fewer than `blockstogoback` predecessors the walk ends on the null
pointer and `GetNextWorkRequired` stops on the failed assertion without a
value; when the tip has at least `blockstogoback` predecessors it returns a
compact value. -/
theorem GetNextWorkRequired_assertion (p : CChainParams) (tip : CBlockIndex)
    (pprev : List CBlockIndex) (pblock : CBlockHeader)
    (hBoundary : (tip.nHeight + 1) % (activeRules p tip.nHeight).nInterval = 0)
    (hT : (activeRules p tip.nHeight).nAveragingTargetTimespan ≠ 0) :
    (pprev.length <
        (blockstogoback tip.nHeight (activeRules p tip.nHeight).nAveragingInterval).toNat →
      walkBack (blockstogoback tip.nHeight (activeRules p tip.nHeight).nAveragingInterval).toNat
          (tip :: pprev) = [] ∧
        GetNextWorkRequired p (tip :: pprev) pblock = .error .assertionFailed) ∧
      ((blockstogoback tip.nHeight (activeRules p tip.nHeight).nAveragingInterval).toNat ≤
          pprev.length →
        ∃ nBits, GetNextWorkRequired p (tip :: pprev) pblock = .ok nBits) := by
  have hI : (activeRules p tip.nHeight).nInterval ≠ 0 := by
    intro h0
    rw [h0, Nat.mod_zero] at hBoundary
    omega
  constructor
  · intro hshort
    have hnil : walkBack
        (blockstogoback tip.nHeight (activeRules p tip.nHeight).nAveragingInterval).toNat
        (tip :: pprev) = [] := by
      rw [walkBack_eq_nil_iff]
      simp only [List.length_cons]
      omega
    refine ⟨hnil, ?_⟩
    unfold GetNextWorkRequired
    simp only [hI, hBoundary, if_false, ne_eq, not_true_eq_false, hnil]
  · intro hlong
    have hlt : (blockstogoback tip.nHeight
        (activeRules p tip.nHeight).nAveragingInterval).toNat < (tip :: pprev).length := by
      simp only [List.length_cons]
      omega
    have hret : GetNextWorkRequired p (tip :: pprev) pblock =
        .ok (GetCompact (retargetValue p.bnProofOfWorkLimit (SetCompact tip.nBits).value
          (limitActualTimespan (tip.GetBlockTime - ((tip :: pprev).get
              ⟨(blockstogoback tip.nHeight (activeRules p tip.nHeight).nAveragingInterval).toNat,
                hlt⟩).GetBlockTime)
            (activeRules p tip.nHeight).nMinActualTimespan
            (activeRules p tip.nHeight).nMaxActualTimespan)
          (activeRules p tip.nHeight).nAveragingTargetTimespan)) := by
      unfold GetNextWorkRequired
      simp only [hI, hBoundary, hT, if_false, ne_eq, not_true_eq_false, walkBack_of_lt hlt]
    exact ⟨_, hret⟩

/-- C15 on the main network at a tip of height 179 with no block behind it. -/
theorem GetNextWorkRequired_assertion_witness :
    GetNextWorkRequired mainParams [⟨179, 1371495596, 0x1e0fffff, 0⟩] ⟨1371495636⟩ =
      .error .assertionFailed :=
  ((GetNextWorkRequired_assertion mainParams ⟨179, 1371495596, 0x1e0fffff, 0⟩ []
    ⟨1371495636⟩ (by decide) (by decide)).1 (by decide)).2

/-- C16: off the retarget boundary, on a network that allows minimum-difficulty
blocks and whose doubled target timespan fits 32 bits, `GetNextWorkRequired`
returns the compact ceiling when the time of the candidate header is greater
than the time of the tip plus twice the target timespan, and the result of the
backward walk (not this branch) when it is not. -/
theorem GetNextWorkRequired_anti_stall (p : CChainParams) (tip : CBlockIndex)
    (pprev : List CBlockIndex) (pblock : CBlockHeader)
    (hInterval : 0 < (activeRules p tip.nHeight).nInterval)
    (hOff : (tip.nHeight + 1) % (activeRules p tip.nHeight).nInterval ≠ 0)
    (hMin : p.fAllowMinDifficultyBlocks = true)
    (hFits : 2 * (activeRules p tip.nHeight).nTargetTimespan < 4294967296) :
    ((tip.nTime : Int) + 2 * ((activeRules p tip.nHeight).nTargetTimespan : Int) <
        (pblock.nTime : Int) →
      GetNextWorkRequired p (tip :: pprev) pblock = .ok (GetCompact p.bnProofOfWorkLimit)) ∧
      ((pblock.nTime : Int) ≤
          (tip.nTime : Int) + 2 * ((activeRules p tip.nHeight).nTargetTimespan : Int) →
        GetNextWorkRequired p (tip :: pprev) pblock =
          .ok (lastNonMinDifficultyBits (activeRules p tip.nHeight).nInterval
            (GetCompact p.bnProofOfWorkLimit) tip pprev)) := by
  have hI : (activeRules p tip.nHeight).nInterval ≠ 0 := by omega
  have hmod : (activeRules p tip.nHeight).nTargetTimespan * 2 % 4294967296 =
      (activeRules p tip.nHeight).nTargetTimespan * 2 := by omega
  constructor
  · intro hlate
    unfold GetNextWorkRequired CBlockHeader.GetBlockTime CBlockIndex.GetBlockTime
    simp only [hI, hOff, hMin, hmod, if_false, ne_eq, not_false_eq_true, if_true]
    rw [if_pos (by push_cast; omega)]
  · intro hearly
    unfold GetNextWorkRequired CBlockHeader.GetBlockTime CBlockIndex.GetBlockTime
    simp only [hI, hOff, hMin, hmod, if_false, ne_eq, not_false_eq_true, if_true]
    rw [if_neg (by push_cast; omega)]

set_option maxRecDepth 100000 in
/-- C16 on the test network: a header more than 7200 seconds after a tip of
height 100 gets the compact ceiling. -/
theorem GetNextWorkRequired_anti_stall_witness :
    GetNextWorkRequired testNetParams [⟨100, 1371400000, 0x1d00ffff, 0⟩] ⟨1371407201⟩ =
      .ok (GetCompact testNetParams.bnProofOfWorkLimit) :=
  (GetNextWorkRequired_anti_stall testNetParams ⟨100, 1371400000, 0x1d00ffff, 0⟩ []
    ⟨1371407201⟩ (by decide) (by decide) (by decide) (by decide)).1 (by decide)

/-- The backward walk stops at the nearest stopping block: the blocks before it
have a predecessor, a height that is not a multiple of the interval and the
bits of the limit. -/
theorem lastNonMinDifficultyBits_split (nInterval limit : Nat) (pprev : List CBlockIndex) :
    ∀ pindex : CBlockIndex, ∃ visited b rest,
      pindex :: pprev = visited ++ b :: rest ∧
      lastNonMinDifficultyBits nInterval limit pindex pprev = b.nBits ∧
      (rest = [] ∨ b.nHeight % nInterval = 0 ∨ b.nBits ≠ limit) ∧
      ∀ v ∈ visited, v.nHeight % nInterval ≠ 0 ∧ v.nBits = limit := by
  induction pprev with
  | nil =>
    intro pindex
    exact ⟨[], pindex, [], rfl, rfl, Or.inl rfl, by simp⟩
  | cons prev rest ih =>
    intro pindex
    unfold lastNonMinDifficultyBits
    by_cases h : pindex.nHeight % nInterval ≠ 0 ∧ pindex.nBits = limit
    · rw [if_pos h]
      obtain ⟨visited, b, rest', hsplit, hbits, hstop, hvis⟩ := ih prev
      refine ⟨pindex :: visited, b, rest', by rw [hsplit]; rfl, hbits, hstop, ?_⟩
      intro v hv
      rcases List.mem_cons.1 hv with rfl | hmem
      · exact h
      · exact hvis v hmem
    · rw [if_neg h]
      refine ⟨[], pindex, prev :: rest, rfl, rfl, ?_, by simp⟩
      right
      by_cases h1 : pindex.nHeight % nInterval = 0
      · exact Or.inl h1
      · exact Or.inr (fun h2 => h ⟨h1, h2⟩)

/-- C17: off the retarget boundary, with minimum-difficulty blocks allowed and
the anti-stall rule not firing, `GetNextWorkRequired` returns the bits of a
block `b` of the backward path from the tip (tip included) that has no
predecessor, or a height that is a multiple of the interval, or bits other
than the compact ceiling; every block of the path before `b` has a predecessor,
a height that is not a multiple of the interval, and the bits of the compact
ceiling, so `b` is the nearest such block. -/
theorem GetNextWorkRequired_skip_walk (p : CChainParams) (tip : CBlockIndex)
    (pprev : List CBlockIndex) (pblock : CBlockHeader)
    (hInterval : 0 < (activeRules p tip.nHeight).nInterval)
    (hOff : (tip.nHeight + 1) % (activeRules p tip.nHeight).nInterval ≠ 0)
    (hMin : p.fAllowMinDifficultyBlocks = true)
    (hQuiet : ¬ (pblock.GetBlockTime > tip.GetBlockTime +
      (((activeRules p tip.nHeight).nTargetTimespan * 2 % 4294967296 : Nat) : Int))) :
    ∃ visited b rest,
      tip :: pprev = visited ++ b :: rest ∧
      GetNextWorkRequired p (tip :: pprev) pblock = .ok b.nBits ∧
      (rest = [] ∨ b.nHeight % (activeRules p tip.nHeight).nInterval = 0 ∨
        b.nBits ≠ GetCompact p.bnProofOfWorkLimit) ∧
      ∀ v ∈ visited, v.nHeight % (activeRules p tip.nHeight).nInterval ≠ 0 ∧
        v.nBits = GetCompact p.bnProofOfWorkLimit := by
  have hI : (activeRules p tip.nHeight).nInterval ≠ 0 := by omega
  obtain ⟨visited, b, rest, hsplit, hbits, hstop, hvis⟩ :=
    lastNonMinDifficultyBits_split (activeRules p tip.nHeight).nInterval
      (GetCompact p.bnProofOfWorkLimit) pprev tip
  refine ⟨visited, b, rest, hsplit, ?_, hstop, hvis⟩
  unfold GetNextWorkRequired
  simp only [hI, hOff, hMin, hQuiet, if_false, ne_eq, not_false_eq_true, if_true, hbits]

set_option maxRecDepth 100000 in
/-- C17 on the test network: the tip of height 100 and its predecessor carry the
compact ceiling, the block of height 98 does not, and its bits are returned. -/
theorem GetNextWorkRequired_skip_walk_witness :
    ∃ visited b rest,
      [(⟨100, 1371400300, 0x1e0fffff, 0⟩ : CBlockIndex), ⟨99, 1371400150, 0x1e0fffff, 0⟩,
        ⟨98, 1371400000, 0x1d00ffff, 0⟩, ⟨97, 1371399850, 0x1d00ffff, 0⟩] =
          visited ++ b :: rest ∧
      GetNextWorkRequired testNetParams
        [⟨100, 1371400300, 0x1e0fffff, 0⟩, ⟨99, 1371400150, 0x1e0fffff, 0⟩,
          ⟨98, 1371400000, 0x1d00ffff, 0⟩, ⟨97, 1371399850, 0x1d00ffff, 0⟩]
        ⟨1371400450⟩ = .ok b.nBits ∧
      (rest = [] ∨ b.nHeight % (activeRules testNetParams 100).nInterval = 0 ∨
        b.nBits ≠ GetCompact testNetParams.bnProofOfWorkLimit) ∧
      ∀ v ∈ visited, v.nHeight % (activeRules testNetParams 100).nInterval ≠ 0 ∧
        v.nBits = GetCompact testNetParams.bnProofOfWorkLimit :=
  GetNextWorkRequired_skip_walk testNetParams ⟨100, 1371400300, 0x1e0fffff, 0⟩
    [⟨99, 1371400150, 0x1e0fffff, 0⟩, ⟨98, 1371400000, 0x1d00ffff, 0⟩,
      ⟨97, 1371399850, 0x1d00ffff, 0⟩] ⟨1371400450⟩
    (by decide) (by decide) (by decide) (by decide)

set_option maxRecDepth 100000 in
/-- C18: for a null tip `GetNextWorkRequired` returns the compact form of the
proof-of-work limit, whatever the candidate header is; the main-network limit
is `~0 >> 20` and its compact form is `0x1e0fffff`. -/
theorem GetNextWorkRequired_null_tip :
    (∀ (p : CChainParams) (pblock : CBlockHeader),
      GetNextWorkRequired p [] pblock = .ok (GetCompact p.bnProofOfWorkLimit)) ∧
    mainParams.bnProofOfWorkLimit = (uint256Mod - 1) >>> 20 ∧
    GetCompact mainParams.bnProofOfWorkLimit = 0x1e0fffff ∧
    ∀ pblock : CBlockHeader, GetNextWorkRequired mainParams [] pblock = .ok 0x1e0fffff := by
  have hc : GetCompact mainParams.bnProofOfWorkLimit = 0x1e0fffff := by decide!
  refine ⟨fun p pblock => rfl, by decide, hc, ?_⟩
  intro pblock
  show Except.ok (GetCompact mainParams.bnProofOfWorkLimit) = _
  rw [hc]

/-- C19: with checkpoints enabled `GetTotalBlocksEstimate` returns a height that
is present in the table of the selected network and is not below any height of
the table (both tables are non-empty: 955000 on the main network, 0 on the
test network); with checkpoints disabled it returns 0. -/
theorem GetTotalBlocksEstimate_spec (fTestNet : Bool) :
    (∃ nHeight, GetTotalBlocksEstimate true fTestNet = some nHeight ∧
      (∃ hash, (nHeight, hash) ∈ (Checkpoints fTestNet).mapCheckpoints) ∧
      ∀ e ∈ (Checkpoints fTestNet).mapCheckpoints, e.1 ≤ nHeight) ∧
    GetTotalBlocksEstimate false fTestNet = some 0 ∧
    (Checkpoints fTestNet).mapCheckpoints ≠ [] ∧
    GetTotalBlocksEstimate true false = some 955000 ∧
    GetTotalBlocksEstimate true true = some 0 := by
  refine ⟨?_, rfl, ?_, by decide, by decide⟩
  · cases fTestNet
    · exact ⟨955000, by decide,
        ⟨0xb5517a50aee6af59eb0ab4ee3262bcbaf3f6672b9301cdd3302e4bab491e7526, by decide⟩,
        by decide⟩
    · exact ⟨0, by decide,
        ⟨0x9b7bc86236c34b5e3a39367c036b7fe8807a966c22a7a1f0da2a198a27e03731, by decide⟩,
        by decide⟩
  · cases fTestNet <;> decide

theorem ratio_between {b a : Rat} (hb : 0 < b) (ha : 0 < a) :
    0 < b / (b + a) ∧ b / (b + a) < 1 := by
  have hsum : 0 < b + a := add_pos hb ha
  refine ⟨div_pos hb hsum, ?_⟩
  rw [div_lt_one hsum]
  linarith

/-- C20, as stated, fails: on the main network a block with 1000 transactions
behind it and a time earlier than the current time gets a negative estimate
when the current time is well before the time of the last checkpoint. -/
theorem GuessVerificationProgress_counterexample :
    (0 : Nat) < 1000 ∧ ((1371500000 : Nat) : Int) < 1400000000 ∧
      0 < data.fTransactionsPerDay ∧
      GuessVerificationProgress data 1400000000 [⟨1000, 1371500000, 0x1e0fffff, 1000⟩] =
        -8000 / 11614859 ∧
      GuessVerificationProgress data 1400000000 [⟨1000, 1371500000, 0x1e0fffff, 1000⟩] < 0 := by
  refine ⟨by decide, by decide, by decide, ?_, ?_⟩ <;>
    norm_num [GuessVerificationProgress, data, fSigcheckVerificationFactor]

/-- C20, amended: `GuessVerificationProgress` returns 0 for a null position; for
a position with a positive transaction count, a block time earlier than the
current time and a positive transaction rate it returns
`workBefore / (workBefore + workAfter)`, and that value lies strictly between 0
and 1 provided that, when the position is at or before the last checkpoint,
the time of the last checkpoint is earlier than the current time. -/
theorem GuessVerificationProgress_between (data : CCheckpointData) (nNow : Int)
    (pindex : CBlockIndex) (pprev : List CBlockIndex)
    (hTx : 0 < pindex.nChainTx)
    (hTime : (pindex.nTime : Int) < nNow)
    (hRate : 0 < data.fTransactionsPerDay)
    (hCheckpoint : (pindex.nChainTx : Int) ≤ data.nTransactionsLastCheckpoint →
      data.nTimeLastCheckpoint < nNow) :
    GuessVerificationProgress data nNow [] = 0 ∧
      GuessVerificationProgress data nNow (pindex :: pprev) =
        specWorkBefore data pindex /
          (specWorkBefore data pindex + specWorkAfter data nNow pindex) ∧
      0 < GuessVerificationProgress data nNow (pindex :: pprev) ∧
      GuessVerificationProgress data nNow (pindex :: pprev) < 1 := by
  have hEq : GuessVerificationProgress data nNow (pindex :: pprev) =
      specWorkBefore data pindex /
        (specWorkBefore data pindex + specWorkAfter data nNow pindex) := by
    unfold GuessVerificationProgress specWorkBefore specWorkAfter fSigcheckVerificationFactor
    by_cases hc : (pindex.nChainTx : Int) ≤ data.nTransactionsLastCheckpoint
    · simp only [hc, if_true]
      push_cast
      ring_nf
    · simp only [hc, if_false]
      push_cast
      ring_nf
  have hc0 : (0 : Rat) < (pindex.nChainTx : Rat) := by exact_mod_cast hTx
  have hbetween : 0 < specWorkBefore data pindex /
        (specWorkBefore data pindex + specWorkAfter data nNow pindex) ∧
      specWorkBefore data pindex /
        (specWorkBefore data pindex + specWorkAfter data nNow pindex) < 1 := by
    apply ratio_between
    · unfold specWorkBefore
      by_cases hc : (pindex.nChainTx : Int) ≤ data.nTransactionsLastCheckpoint
      · rw [if_pos hc]
        exact hc0
      · rw [if_neg hc]
        have hgt : (data.nTransactionsLastCheckpoint : Rat) < (pindex.nChainTx : Rat) := by
          exact_mod_cast not_le.1 hc
        linarith
    · unfold specWorkAfter
      by_cases hc : (pindex.nChainTx : Int) ≤ data.nTransactionsLastCheckpoint
      · rw [if_pos hc]
        have hle : (pindex.nChainTx : Rat) ≤ (data.nTransactionsLastCheckpoint : Rat) := by
          exact_mod_cast hc
        have hnow : (0 : Rat) < (nNow : Rat) - (data.nTimeLastCheckpoint : Rat) := by
          have := hCheckpoint hc
          have h2 : (data.nTimeLastCheckpoint : Rat) < (nNow : Rat) := by exact_mod_cast this
          linarith
        have hpos : 0 < 5 * ((nNow : Rat) - (data.nTimeLastCheckpoint : Rat)) / 86400 *
            data.fTransactionsPerDay := by positivity
        linarith
      · rw [if_neg hc]
        have hnow : (0 : Rat) < (nNow : Rat) - (pindex.nTime : Rat) := by
          have h2 : ((pindex.nTime : Int) : Rat) < (nNow : Rat) := by exact_mod_cast hTime
          push_cast at h2
          linarith
        positivity
  refine ⟨rfl, hEq, ?_, ?_⟩
  · rw [hEq]
    exact hbetween.1
  · rw [hEq]
    exact hbetween.2

/-- C20 amended, on the main network one day after the last checkpoint, at a
block with 1000 transactions behind it. -/
theorem GuessVerificationProgress_between_witness :
    0 < GuessVerificationProgress data (1422274779 + 86400)
        [⟨1000, 1371500000, 0x1e0fffff, 1000⟩] ∧
      GuessVerificationProgress data (1422274779 + 86400)
        [⟨1000, 1371500000, 0x1e0fffff, 1000⟩] < 1 :=
  (GuessVerificationProgress_between data (1422274779 + 86400)
    ⟨1000, 1371500000, 0x1e0fffff, 1000⟩ [] (by decide) (by decide) (by decide)
    (fun _ => by decide)).2.2

/-- The retargeted value is a 256-bit value, whatever the ceiling is. -/
theorem retargetValue_lt (L x : Nat) (a : Int) (T : Nat) :
    retargetValue L x a T < uint256Mod := by
  have hM : 0 < uint256Mod := by unfold uint256Mod; positivity
  unfold retargetValue
  simp only
  by_cases hs : bits x > 235
  · simp only [hs, decide_True, if_true]
    have h := Nat.mod_lt (x / 2 * a.toNat % uint256Mod / T * 2) hM
    split_ifs <;> omega
  · simp only [hs, decide_False, if_false, Bool.false_eq_true]
    have h1 := Nat.mod_lt (x * a.toNat) hM
    have h2 : x * a.toNat % uint256Mod / T ≤ x * a.toNat % uint256Mod := Nat.div_le_self _ _
    split_ifs <;> omega

/-- C21: in the retarget branch (boundary height, reference block reached,
non-zero averaging target timespan) `GetNextWorkRequired` returns a compact
value, for every tip bits and every pair of times, and that value decodes
without flags to a target not above the ceiling: the new target is cut back to
the ceiling before it is encoded and decoding the encoding never exceeds the
encoded value. -/
theorem retarget_result_le_ceiling (p : CChainParams) (tip : CBlockIndex)
    (pprev : List CBlockIndex) (pblock : CBlockHeader)
    (hBoundary : (tip.nHeight + 1) % (activeRules p tip.nHeight).nInterval = 0)
    (hT : (activeRules p tip.nHeight).nAveragingTargetTimespan ≠ 0)
    (hFirst : (blockstogoback tip.nHeight (activeRules p tip.nHeight).nAveragingInterval).toNat
      < (tip :: pprev).length) :
    ∃ bnNew, bnNew ≤ p.bnProofOfWorkLimit ∧
      GetNextWorkRequired p (tip :: pprev) pblock = .ok (GetCompact bnNew) ∧
      (SetCompact (GetCompact bnNew)).value ≤ bnNew ∧
      (SetCompact (GetCompact bnNew)).value ≤ p.bnProofOfWorkLimit ∧
      (SetCompact (GetCompact bnNew)).fNegative = false ∧
      (SetCompact (GetCompact bnNew)).fOverflow = false := by
  have hI : (activeRules p tip.nHeight).nInterval ≠ 0 := by
    intro h0
    rw [h0, Nat.mod_zero] at hBoundary
    omega
  have hle := retargetValue_le p.bnProofOfWorkLimit (SetCompact tip.nBits).value
    (limitActualTimespan (tip.GetBlockTime - ((tip :: pprev).get
        ⟨(blockstogoback tip.nHeight (activeRules p tip.nHeight).nAveragingInterval).toNat,
          hFirst⟩).GetBlockTime)
      (activeRules p tip.nHeight).nMinActualTimespan
      (activeRules p tip.nHeight).nMaxActualTimespan)
    (activeRules p tip.nHeight).nAveragingTargetTimespan
  have hlt := retargetValue_lt p.bnProofOfWorkLimit (SetCompact tip.nBits).value
    (limitActualTimespan (tip.GetBlockTime - ((tip :: pprev).get
        ⟨(blockstogoback tip.nHeight (activeRules p tip.nHeight).nAveragingInterval).toNat,
          hFirst⟩).GetBlockTime)
      (activeRules p tip.nHeight).nMinActualTimespan
      (activeRules p tip.nHeight).nMaxActualTimespan)
    (activeRules p tip.nHeight).nAveragingTargetTimespan
  have hdec := SetCompact_GetCompact hlt
  have hround := SetCompact_GetCompact_value_le hlt
  refine ⟨_, hle, ?_, hround, le_trans hround hle, by rw [hdec], by rw [hdec]⟩
  unfold GetNextWorkRequired
  simp only [hI, hBoundary, hT, if_false, ne_eq, not_true_eq_false, walkBack_of_lt hFirst]

set_option maxRecDepth 100000 in
/-- C21 on the main network at a tip of generation 3 whose bits decode far above
the ceiling. -/
theorem retarget_result_le_ceiling_witness :
    ∃ bnNew, bnNew ≤ mainParams.bnProofOfWorkLimit ∧
      GetNextWorkRequired mainParams
        [⟨426005, 1000250, 0x207fffff, 0⟩, ⟨426004, 1000200, 0x1e0fffff, 0⟩,
          ⟨426003, 1000160, 0x1e0fffff, 0⟩, ⟨426002, 1000120, 0x1e0fffff, 0⟩,
          ⟨426001, 1000080, 0x1e0fffff, 0⟩, ⟨426000, 1000040, 0x1e0fffff, 0⟩,
          ⟨425999, 1000000, 0x1e0fffff, 0⟩] ⟨1000290⟩ = .ok (GetCompact bnNew) ∧
      (SetCompact (GetCompact bnNew)).value ≤ bnNew ∧
      (SetCompact (GetCompact bnNew)).value ≤ mainParams.bnProofOfWorkLimit ∧
      (SetCompact (GetCompact bnNew)).fNegative = false ∧
      (SetCompact (GetCompact bnNew)).fOverflow = false :=
  retarget_result_le_ceiling mainParams ⟨426005, 1000250, 0x207fffff, 0⟩
    [⟨426004, 1000200, 0x1e0fffff, 0⟩,
      ⟨426003, 1000160, 0x1e0fffff, 0⟩, ⟨426002, 1000120, 0x1e0fffff, 0⟩,
      ⟨426001, 1000080, 0x1e0fffff, 0⟩, ⟨426000, 1000040, 0x1e0fffff, 0⟩,
      ⟨425999, 1000000, 0x1e0fffff, 0⟩] ⟨1000290⟩ (by decide) (by decide) (by decide)

theorem limitActualTimespan_toNat_le (t : Int) (lo hi : Nat) :
    (limitActualTimespan t lo hi).toNat ≤ hi := by
  unfold limitActualTimespan
  simp only
  split_ifs <;> omega

/-- When twice the product of the target and the timespan fits 256 bits, no
step of the retarget arithmetic wraps and the 256-bit result is the unbounded
one. -/
theorem retargetValue_eq_unbounded (L x : Nat) (a : Int) (T : Nat)
    (hroom : x * a.toNat * 2 < uint256Mod) :
    (if 235 < bits x then x / 2 else x) * a.toNat < uint256Mod ∧
      x / 2 * a.toNat / T * 2 < uint256Mod ∧
      retargetValue L x a T = min L (retargetUnbounded x a.toNat T) := by
  have hprod : x * a.toNat < uint256Mod := by omega
  have hhalf : x / 2 * a.toNat ≤ x * a.toNat := Nat.mul_le_mul_right _ (Nat.div_le_self x 2)
  have hquot : x / 2 * a.toNat / T ≤ x / 2 * a.toNat := Nat.div_le_self _ _
  have hshift : x / 2 * a.toNat / T * 2 < uint256Mod := by omega
  refine ⟨?_, hshift, ?_⟩
  · split_ifs <;> omega
  · unfold retargetValue retargetUnbounded
    simp only [gt_iff_lt, min_def]
    by_cases hs : 235 < bits x
    · simp only [hs, decide_True, if_true, Nat.mod_eq_of_lt (lt_of_le_of_lt hhalf hprod),
        Nat.mod_eq_of_lt hshift]
      split_ifs <;> first | rfl | omega
    · simp only [hs, decide_False, if_false, Bool.false_eq_true, Nat.mod_eq_of_lt hprod]
      split_ifs <;> first | rfl | omega

/-- The main-network rules at any height: the maximum actual timespan is at most
14400, the averaging target timespan and the interval are not zero. -/
theorem activeRules_main_bounds (nHeight : Nat) :
    (activeRules mainParams nHeight).nMaxActualTimespan ≤ 14400 ∧
      (activeRules mainParams nHeight).nAveragingTargetTimespan ≠ 0 ∧
      (activeRules mainParams nHeight).nInterval ≠ 0 := by
  rcases activeRules_main_cases nHeight with h | h | h <;> rw [h] <;> decide

/-- C22: on the main network (ceiling `2 ^ 236 - 1`, maximum actual timespan at
most 14400), for a tip at a retarget boundary whose reference block is `first`
and whose bits decode to a target not above the ceiling, the product of the
target (shifted right by one when its bit-length exceeds 235) and the clamped
actual timespan is below `2 ^ 256`, the final left shift stays below `2 ^ 256`,
and the value returned is the compact form of the same computation in
unbounded integers, cut back to the ceiling. -/
theorem retarget_main_no_wrap (tip : CBlockIndex) (pprev : List CBlockIndex)
    (pblock : CBlockHeader) (first : CBlockIndex) (rest : List CBlockIndex)
    (hBoundary : (tip.nHeight + 1) % (activeRules mainParams tip.nHeight).nInterval = 0)
    (hFirst : walkBack (blockstogoback tip.nHeight
      (activeRules mainParams tip.nHeight).nAveragingInterval).toNat (tip :: pprev)
        = first :: rest)
    (hCeiling : (SetCompact tip.nBits).value ≤ mainParams.bnProofOfWorkLimit) :
    mainParams.bnProofOfWorkLimit = 2 ^ 236 - 1 ∧
      (actualTimespanOf (activeRules mainParams tip.nHeight) tip first).toNat ≤ 14400 ∧
      (if 235 < bits (SetCompact tip.nBits).value then (SetCompact tip.nBits).value / 2
          else (SetCompact tip.nBits).value) *
        (actualTimespanOf (activeRules mainParams tip.nHeight) tip first).toNat < 2 ^ 256 ∧
      (SetCompact tip.nBits).value / 2 *
          (actualTimespanOf (activeRules mainParams tip.nHeight) tip first).toNat /
          (activeRules mainParams tip.nHeight).nAveragingTargetTimespan * 2 < 2 ^ 256 ∧
      GetNextWorkRequired mainParams (tip :: pprev) pblock =
        .ok (GetCompact (min mainParams.bnProofOfWorkLimit
          (retargetUnbounded (SetCompact tip.nBits).value
            (actualTimespanOf (activeRules mainParams tip.nHeight) tip first).toNat
            (activeRules mainParams tip.nHeight).nAveragingTargetTimespan))) := by
  obtain ⟨hmax, hT, hI⟩ := activeRules_main_bounds tip.nHeight
  have hL : mainParams.bnProofOfWorkLimit = 2 ^ 236 - 1 := by decide
  have hL2 : mainParams.bnProofOfWorkLimit < 2 ^ 236 := by decide
  have hM : uint256Mod = 2 ^ 256 := rfl
  have ha : (actualTimespanOf (activeRules mainParams tip.nHeight) tip first).toNat ≤ 14400 :=
    le_trans (limitActualTimespan_toNat_le _ _ _) hmax
  have hbig : (2 : Nat) ^ 236 * 14400 * 2 ≤ uint256Mod := by decide
  have hroom : (SetCompact tip.nBits).value *
      (actualTimespanOf (activeRules mainParams tip.nHeight) tip first).toNat * 2
        < uint256Mod := by
    have h2 : (SetCompact tip.nBits).value *
        (actualTimespanOf (activeRules mainParams tip.nHeight) tip first).toNat
          < 2 ^ 236 * 14400 :=
      Nat.mul_lt_mul_of_lt_of_le (lt_of_le_of_lt hCeiling hL2) ha (by norm_num)
    omega
  obtain ⟨h1, h2, h3⟩ := retargetValue_eq_unbounded mainParams.bnProofOfWorkLimit
    (SetCompact tip.nBits).value (actualTimespanOf (activeRules mainParams tip.nHeight) tip first)
    (activeRules mainParams tip.nHeight).nAveragingTargetTimespan hroom
  refine ⟨hL, ha, by rw [← hM]; exact h1, by rw [← hM]; exact h2, ?_⟩
  rw [← h3]
  unfold GetNextWorkRequired actualTimespanOf
  simp only [hI, hBoundary, hT, if_false, ne_eq, not_true_eq_false, hFirst]

set_option maxRecDepth 100000 in
/-- C22 at a main-network tip of generation 3 with the genesis bits. -/
theorem retarget_main_no_wrap_witness :
    GetNextWorkRequired mainParams
        [⟨426005, 1000250, 0x1e0ffff0, 0⟩, ⟨426004, 1000200, 0x1e0ffff0, 0⟩,
          ⟨426003, 1000160, 0x1e0ffff0, 0⟩, ⟨426002, 1000120, 0x1e0ffff0, 0⟩,
          ⟨426001, 1000080, 0x1e0ffff0, 0⟩, ⟨426000, 1000040, 0x1e0ffff0, 0⟩,
          ⟨425999, 1000000, 0x1e0ffff0, 0⟩] ⟨1000290⟩ =
      .ok (GetCompact (min mainParams.bnProofOfWorkLimit
        (retargetUnbounded (SetCompact 0x1e0ffff0).value 247 240))) :=
  (retarget_main_no_wrap ⟨426005, 1000250, 0x1e0ffff0, 0⟩
    [⟨426004, 1000200, 0x1e0ffff0, 0⟩,
      ⟨426003, 1000160, 0x1e0ffff0, 0⟩, ⟨426002, 1000120, 0x1e0ffff0, 0⟩,
      ⟨426001, 1000080, 0x1e0ffff0, 0⟩, ⟨426000, 1000040, 0x1e0ffff0, 0⟩,
      ⟨425999, 1000000, 0x1e0ffff0, 0⟩] ⟨1000290⟩ ⟨425999, 1000000, 0x1e0ffff0, 0⟩ []
    (by decide) (by decide) (by decide)).2.2.2.2

/-- C23: for two blocks whose bits decode to valid targets `t1 <= t2` (no
negative flag, no overflow flag, not zero) `GetBlockProof` returns a value for
each, and the work of the block with the lower target is not less. -/
theorem GetBlockProof_le_of_target_le (block1 block2 : CBlockIndex)
    (hNeg1 : (SetCompact block1.nBits).fNegative = false)
    (hOvf1 : (SetCompact block1.nBits).fOverflow = false)
    (hNz1 : (SetCompact block1.nBits).value ≠ 0)
    (hNeg2 : (SetCompact block2.nBits).fNegative = false)
    (hOvf2 : (SetCompact block2.nBits).fOverflow = false)
    (hNz2 : (SetCompact block2.nBits).value ≠ 0)
    (hLe : (SetCompact block1.nBits).value ≤ (SetCompact block2.nBits).value) :
    ∃ w1 w2, GetBlockProof block1 = .ok w1 ∧ GetBlockProof block2 = .ok w2 ∧ w2 ≤ w1 := by
  obtain ⟨e1, _, _, _⟩ := GetBlockProof_of_valid block1 hNeg1 hOvf1 hNz1
  obtain ⟨e2, _, _, _⟩ := GetBlockProof_of_valid block2 hNeg2 hOvf2 hNz2
  exact ⟨_, _, e1, e2, Nat.div_le_div_left (by omega) (by omega)⟩

/-- C23 at the genesis bits `0x1e0ffff0` and the ceiling bits `0x1e0fffff` of the
main network. -/
theorem GetBlockProof_le_of_target_le_witness :
    ∃ w1 w2, GetBlockProof ⟨0, 1371488396, 0x1e0ffff0, 0⟩ = .ok w1 ∧
      GetBlockProof ⟨1, 1371488436, 0x1e0fffff, 0⟩ = .ok w2 ∧ w2 ≤ w1 :=
  GetBlockProof_le_of_target_le ⟨0, 1371488396, 0x1e0ffff0, 0⟩ ⟨1, 1371488436, 0x1e0fffff, 0⟩
    (by decide) (by decide) (by decide) (by decide) (by decide) (by decide) (by decide)

theorem walkBackLinks_le (n : Nat) (l : List CBlockIndex) : walkBackLinks n l ≤ n := by
  induction n generalizing l with
  | zero => simp [walkBackLinks]
  | succ k ih =>
    cases l with
    | nil => simp [walkBackLinks]
    | cons b t =>
      have := ih t
      simp only [walkBackLinks]
      omega

theorem walkBack_eq_drop_links (n : Nat) (l : List CBlockIndex) :
    walkBack n l = l.drop (walkBackLinks n l) := by
  induction n generalizing l with
  | zero => simp [walkBack, walkBackLinks]
  | succ k ih =>
    cases l with
    | nil => simp [walkBack, walkBackLinks]
    | cons b t => simpa [walkBack, walkBackLinks] using ih t

/-- The `int blockstogoback` never exceeds the averaging interval. -/
theorem blockstogoback_toNat_le (nHeight nAveragingInterval : Nat) :
    (blockstogoback nHeight nAveragingInterval).toNat ≤ nAveragingInterval := by
  unfold blockstogoback toInt32
  split_ifs <;> omega

theorem succ_mod_of_ne_zero (n m : Nat) (h : (n + 1) % m ≠ 0) : (n + 1) % m = n % m + 1 := by
  rcases Nat.eq_zero_or_pos m with hm | hm
  · subst hm
    simp
  · have hlt : n % m < m := Nat.mod_lt n hm
    rcases Nat.lt_or_ge (n % m + 1) m with h1 | h1
    · rw [Nat.add_mod, Nat.mod_eq_of_lt (a := 1) (by omega), Nat.mod_eq_of_lt h1]
    · exfalso
      apply h
      have e : n % m + 1 = m := by omega
      have hm1 : 1 % m < m := Nat.mod_lt 1 hm
      rcases Nat.lt_or_ge 1 m with h2 | h2
      · rw [Nat.add_mod, Nat.mod_eq_of_lt (a := 1) h2, e, Nat.mod_self]
      · have : m = 1 := by omega
        subst this
        exact Nat.mod_one _

/-- On a chain with consecutive heights the skip walk follows at most as many
links as the height of its first block is above a multiple of the interval. -/
theorem skipWalkLinks_le_mod (nInterval limit : Nat) (pprev : List CBlockIndex) :
    ∀ pindex : CBlockIndex, ConsecutiveHeights (pindex :: pprev) →
      skipWalkLinks nInterval limit pindex pprev ≤ pindex.nHeight % nInterval := by
  induction pprev with
  | nil =>
    intro pindex _
    simp [skipWalkLinks]
  | cons prev rest ih =>
    intro pindex hHeights
    unfold ConsecutiveHeights at hHeights ih
    simp only [consecutiveHeights, Bool.and_eq_true, beq_iff_eq] at hHeights
    unfold skipWalkLinks
    split_ifs with h
    · have hprev := ih prev hHeights.2
      have hmod := succ_mod_of_ne_zero prev.nHeight nInterval (by rw [← hHeights.1]; exact h.1)
      rw [hHeights.1, hmod]
      omega
    · exact Nat.zero_le _

theorem lastNonMinDifficultyBits_eq_drop (nInterval limit : Nat) (pprev : List CBlockIndex) :
    ∀ pindex : CBlockIndex, ∃ b rest,
      (pindex :: pprev).drop (skipWalkLinks nInterval limit pindex pprev) = b :: rest ∧
      lastNonMinDifficultyBits nInterval limit pindex pprev = b.nBits := by
  induction pprev with
  | nil =>
    intro pindex
    exact ⟨pindex, [], rfl, rfl⟩
  | cons prev rest ih =>
    intro pindex
    unfold skipWalkLinks lastNonMinDifficultyBits
    split_ifs with h
    · obtain ⟨b, rest', hdrop, hbits⟩ := ih prev
      exact ⟨b, rest', by simpa using hdrop, hbits⟩
    · exact ⟨pindex, prev :: rest, rfl, rfl⟩

/-- C24: the retarget walk of `GetNextWorkRequired` follows at most
`nAveragingInterval` predecessor links; on a chain with consecutive heights the
minimum-difficulty walk follows fewer than `nInterval` links and ends on the
block whose bits it returns; on the networks of chainparams.cpp that is fewer
than one averaging window; and the function ends with a value or an error. -/
theorem backward_walks_bounded (p : CChainParams) (tip : CBlockIndex)
    (pprev : List CBlockIndex) (pblock : CBlockHeader)
    (hInterval : 0 < (activeRules p tip.nHeight).nInterval)
    (hHeights : ConsecutiveHeights (tip :: pprev)) :
    walkBack (blockstogoback tip.nHeight (activeRules p tip.nHeight).nAveragingInterval).toNat
        (tip :: pprev) =
      (tip :: pprev).drop (walkBackLinks
        (blockstogoback tip.nHeight (activeRules p tip.nHeight).nAveragingInterval).toNat
        (tip :: pprev)) ∧
    walkBackLinks (blockstogoback tip.nHeight (activeRules p tip.nHeight).nAveragingInterval).toNat
        (tip :: pprev) ≤ (activeRules p tip.nHeight).nAveragingInterval ∧
    (∃ b rest,
      (tip :: pprev).drop (skipWalkLinks (activeRules p tip.nHeight).nInterval
        (GetCompact p.bnProofOfWorkLimit) tip pprev) = b :: rest ∧
      lastNonMinDifficultyBits (activeRules p tip.nHeight).nInterval
        (GetCompact p.bnProofOfWorkLimit) tip pprev = b.nBits) ∧
    skipWalkLinks (activeRules p tip.nHeight).nInterval (GetCompact p.bnProofOfWorkLimit)
        tip pprev < (activeRules p tip.nHeight).nInterval ∧
    (p = mainParams ∨ p = testNetParams ∨ p = regTestParams ∨ p = unitTestParams →
      skipWalkLinks (activeRules p tip.nHeight).nInterval (GetCompact p.bnProofOfWorkLimit)
        tip pprev < (activeRules p tip.nHeight).nAveragingInterval) ∧
    ((∃ nBits, GetNextWorkRequired p (tip :: pprev) pblock = .ok nBits) ∨
      GetNextWorkRequired p (tip :: pprev) pblock = .error .assertionFailed ∨
      GetNextWorkRequired p (tip :: pprev) pblock = .error .divisionByZero) := by
  have hskip : skipWalkLinks (activeRules p tip.nHeight).nInterval
      (GetCompact p.bnProofOfWorkLimit) tip pprev < (activeRules p tip.nHeight).nInterval :=
    lt_of_le_of_lt (skipWalkLinks_le_mod _ _ pprev tip hHeights) (Nat.mod_lt _ hInterval)
  refine ⟨walkBack_eq_drop_links _ _,
    le_trans (walkBackLinks_le _ _) (blockstogoback_toNat_le _ _),
    lastNonMinDifficultyBits_eq_drop _ _ pprev tip, hskip, ?_, ?_⟩
  · intro hp
    have hle : (activeRules p tip.nHeight).nInterval ≤
        (activeRules p tip.nHeight).nAveragingInterval := by
      rw [activeRules_networks p hp tip.nHeight]
      rcases activeRules_main_cases tip.nHeight with h | h | h <;> simp only [h] <;> omega
    omega
  · cases hres : GetNextWorkRequired p (tip :: pprev) pblock with
    | ok v => exact Or.inl ⟨v, rfl⟩
    | error e =>
      cases e
      · exact Or.inr (Or.inl rfl)
      · exact Or.inr (Or.inr rfl)

set_option maxRecDepth 100000 in
/-- C24 at the first retarget of the main network: 89 links are followed. -/
theorem backward_walks_bounded_witness :
    walkBackLinks 89 (mainFirstPeriodTip :: mainFirstPeriodPrev) ≤ 90 :=
  (backward_walks_bounded mainParams mainFirstPeriodTip mainFirstPeriodPrev
    ⟨1371488396 + 3640⟩ (by decide) (by unfold ConsecutiveHeights; decide)).2.1

/-- On a chain with consecutive heights the first block is as many heights above
the last block as there are blocks between them. -/
theorem height_of_head (chain : List CBlockIndex) (hHeights : ConsecutiveHeights chain) :
    ∀ tip last : CBlockIndex, chain.head? = some tip → chain.getLast? = some last →
      tip.nHeight + 1 = last.nHeight + chain.length := by
  induction chain with
  | nil =>
    intro tip last hhead
    simp at hhead
  | cons b t ih =>
    intro tip last hhead hlast
    simp only [List.head?_cons, Option.some.injEq] at hhead
    subst hhead
    cases t with
    | nil =>
      simp only [List.getLast?_singleton, Option.some.injEq] at hlast
      subst hlast
      simp
    | cons c u =>
      unfold ConsecutiveHeights at hHeights ih
      simp only [consecutiveHeights, Bool.and_eq_true, beq_iff_eq] at hHeights
      rw [List.getLast?_cons_cons] at hlast
      have := ih hHeights.2 c last rfl hlast
      simp only [List.length_cons] at this ⊢
      omega

/-- A well-formed chain has as many blocks behind the tip as the tip is high. -/
theorem wellFormed_length (tip : CBlockIndex) (pprev : List CBlockIndex)
    (hChain : WellFormedChain (tip :: pprev)) : pprev.length = tip.nHeight := by
  obtain ⟨hHeights, hLast⟩ := hChain
  cases hl : (tip :: pprev).getLast? with
  | none => simp at hl
  | some last =>
    rw [hl] at hLast
    simp only [Option.map_some', Option.some.injEq] at hLast
    have := height_of_head (tip :: pprev) hHeights tip last rfl hl
    simp only [List.length_cons] at this
    omega

/-- On the main network, at a retarget boundary, the number of links to go back
is at most the height of the tip. -/
theorem blockstogoback_main_le (nHeight : Nat)
    (hBoundary : (nHeight + 1) % (activeRules mainParams nHeight).nInterval = 0) :
    (blockstogoback nHeight (activeRules mainParams nHeight).nAveragingInterval).toNat
      ≤ nHeight := by
  by_cases h2 : nHeight + 1 < 208440
  · rw [activeRules_main_generation1 nHeight h2] at hBoundary ⊢
    simp only at hBoundary ⊢
    rw [blockstogoback_eq_spec nHeight 90 (by norm_num)]
    unfold specBlocksToGoBack
    split_ifs <;> omega
  · by_cases h3 : nHeight + 1 < 426000
    · rw [activeRules_main_generation2 nHeight (by omega) h3]
      simp only
      rw [blockstogoback_eq_spec nHeight 15 (by norm_num)]
      unfold specBlocksToGoBack
      split_ifs <;> omega
    · rw [activeRules_main_generation3 nHeight (by omega)]
      simp only
      rw [blockstogoback_eq_spec nHeight 6 (by norm_num)]
      unfold specBlocksToGoBack
      split_ifs <;> omega

/-- C25: on the main network, for a well-formed chain (consecutive heights down
to a genesis block of height 0) and a tip at a retarget boundary of any of the
three generations, the backward walk of `blockstogoback` links ends on a block
of the chain, `assert(pindexFirst)` holds, and `GetNextWorkRequired` returns a
compact value. -/
theorem main_assertion_unreachable (tip : CBlockIndex) (pprev : List CBlockIndex)
    (pblock : CBlockHeader)
    (hChain : WellFormedChain (tip :: pprev))
    (hBoundary : (tip.nHeight + 1) % (activeRules mainParams tip.nHeight).nInterval = 0) :
    (∃ first rest, walkBack (blockstogoback tip.nHeight
        (activeRules mainParams tip.nHeight).nAveragingInterval).toNat (tip :: pprev)
          = first :: rest) ∧
      GetNextWorkRequired mainParams (tip :: pprev) pblock ≠ .error .assertionFailed ∧
      ∃ nBits, GetNextWorkRequired mainParams (tip :: pprev) pblock = .ok nBits := by
  obtain ⟨_, hT, hI⟩ := activeRules_main_bounds tip.nHeight
  have hlen := wellFormed_length tip pprev hChain
  have hle := blockstogoback_main_le tip.nHeight hBoundary
  have hlt : (blockstogoback tip.nHeight
      (activeRules mainParams tip.nHeight).nAveragingInterval).toNat < (tip :: pprev).length := by
    simp only [List.length_cons]
    omega
  have hwalk := walkBack_of_lt hlt
  have hret : GetNextWorkRequired mainParams (tip :: pprev) pblock =
      .ok (GetCompact (retargetValue mainParams.bnProofOfWorkLimit (SetCompact tip.nBits).value
        (limitActualTimespan (tip.GetBlockTime - ((tip :: pprev).get
            ⟨(blockstogoback tip.nHeight
              (activeRules mainParams tip.nHeight).nAveragingInterval).toNat, hlt⟩).GetBlockTime)
          (activeRules mainParams tip.nHeight).nMinActualTimespan
          (activeRules mainParams tip.nHeight).nMaxActualTimespan)
        (activeRules mainParams tip.nHeight).nAveragingTargetTimespan)) := by
    unfold GetNextWorkRequired
    simp only [hI, hBoundary, hT, if_false, ne_eq, not_true_eq_false, hwalk]
  refine ⟨⟨_, _, hwalk⟩, ?_, ⟨_, hret⟩⟩
  rw [hret]
  intro h
  cases h

set_option maxRecDepth 100000 in
/-- C25 at the first retarget of the main network. -/
theorem main_assertion_unreachable_witness :
    ∃ nBits, GetNextWorkRequired mainParams (mainFirstPeriodTip :: mainFirstPeriodPrev)
      ⟨1371488396 + 3640⟩ = .ok nBits :=
  (main_assertion_unreachable mainFirstPeriodTip mainFirstPeriodPrev ⟨1371488396 + 3640⟩
    ⟨by unfold ConsecutiveHeights; decide, by decide⟩ (by decide)).2.2

theorem retargetUnbounded_mono (x T : Nat) {a1 a2 : Nat} (h : a1 ≤ a2) :
    retargetUnbounded x a1 T ≤ retargetUnbounded x a2 T := by
  unfold retargetUnbounded
  split_ifs
  · exact Nat.mul_le_mul_right _ (Nat.div_le_div_right (Nat.mul_le_mul_left _ h))
  · exact Nat.div_le_div_right (Nat.mul_le_mul_left _ h)

/-- Without wraparound the decoded retarget result does not decrease when the
actual timespan grows. -/
theorem retarget_monotone_without_wrap (L x T : Nat) (a1 a2 : Int) (h : a1 ≤ a2)
    (hroom : x * a2.toNat * 2 < uint256Mod) :
    (SetCompact (GetCompact (retargetValue L x a1 T))).value ≤
      (SetCompact (GetCompact (retargetValue L x a2 T))).value := by
  have hnat : a1.toNat ≤ a2.toNat := Int.toNat_le_toNat h
  have hroom1 : x * a1.toNat * 2 < uint256Mod :=
    lt_of_le_of_lt (Nat.mul_le_mul_right _ (Nat.mul_le_mul_left _ hnat)) hroom
  obtain ⟨_, _, e1⟩ := retargetValue_eq_unbounded L x a1 T hroom1
  obtain ⟨_, _, e2⟩ := retargetValue_eq_unbounded L x a2 T hroom
  apply SetCompact_GetCompact_mono _ (retargetValue_lt L x a2 T)
  rw [e1, e2]
  exact min_le_min_left L (retargetUnbounded_mono x T hnat)

/-- The two bounds absorb what lies outside them: a timespan not above the
minimum gives the timespan of the minimum, a timespan not below the maximum
gives the timespan of the maximum. -/
theorem limitActualTimespan_outside (t : Int) (lo hi : Nat) :
    (t ≤ (lo : Int) → limitActualTimespan t lo hi = limitActualTimespan (lo : Int) lo hi) ∧
      ((hi : Int) ≤ t → limitActualTimespan t lo hi = limitActualTimespan (hi : Int) lo hi) := by
  unfold limitActualTimespan
  constructor
  · intro h
    simp only
    split_ifs <;> omega
  · intro h
    simp only
    split_ifs <;> omega

set_option maxRecDepth 100000 in
/-- C26 at the regression-test network: with the same 89 blocks behind the tip of
height 89, the tip time 3600 seconds after the genesis block gives the bits
`0x1f2467ac` and the later tip time 3601 seconds after it gives `0x1f09192b`,
which decode to a smaller target: the pre-shifted product wraps around
`2 ^ 256` in both computations. -/
theorem retarget_regtest_not_monotone :
    uint256Mod ≤ (SetCompact 0x207fffff).value / 2 * 3600 ∧
      GetNextWorkRequired regTestParams (regTestChainAt (1296688602 + 3600))
        ⟨1296688602 + 3700⟩ = .ok 0x1f2467ac ∧
      GetNextWorkRequired regTestParams (regTestChainAt (1296688602 + 3601))
        ⟨1296688602 + 3700⟩ = .ok 0x1f09192b ∧
      (SetCompact 0x1f09192b).value < (SetCompact 0x1f2467ac).value := by
  decide!

/-- With the skip flag off and bits that decode to a valid target not above the
ceiling, `CheckProofOfWork` compares the hash with the target. -/
theorem CheckProofOfWork_of_range (p : CChainParams) (hash nBits : Nat)
    (hSkip : p.fSkipProofOfWorkCheck = false)
    (hNeg : (SetCompact nBits).fNegative = false)
    (hOvf : (SetCompact nBits).fOverflow = false)
    (hNz : (SetCompact nBits).value ≠ 0)
    (hLe : (SetCompact nBits).value ≤ p.bnProofOfWorkLimit) :
    CheckProofOfWork p hash nBits = decide (hash ≤ (SetCompact nBits).value) := by
  unfold CheckProofOfWork
  have hgt : ¬ (SetCompact nBits).value > p.bnProofOfWorkLimit := by omega
  simp only [hSkip, hNeg, hOvf, hNz, hgt, Bool.false_eq_true, if_false, beq_iff_eq,
    decide_False, Bool.or_self, Bool.false_or]
  by_cases hh : hash ≤ (SetCompact nBits).value
  · simp [hh, Nat.not_lt.2 hh, hNz]
  · simp [hh, not_le.1 hh, hNz]

set_option maxRecDepth 100000 in
/-- C27: on every network of chainparams.cpp the ceiling `L` is `~0 >> 20` or
`~0 >> 1`, and its compact form decodes without the negative flag, without the
overflow flag, to a non-zero target not above `L`; so these bits, which
`GetNextWorkRequired` returns for a null tip and by the minimum-difficulty
rule, pass the range check of `CheckProofOfWork`, which then compares the hash
with the target and accepts the hash 0. -/
theorem ceiling_acceptable (p : CChainParams)
    (hp : p = mainParams ∨ p = testNetParams ∨ p = regTestParams ∨ p = unitTestParams) :
    (p.bnProofOfWorkLimit = (uint256Mod - 1) >>> 20 ∨
        p.bnProofOfWorkLimit = (uint256Mod - 1) >>> 1) ∧
      (SetCompact (GetCompact p.bnProofOfWorkLimit)).fNegative = false ∧
      (SetCompact (GetCompact p.bnProofOfWorkLimit)).fOverflow = false ∧
      (SetCompact (GetCompact p.bnProofOfWorkLimit)).value ≠ 0 ∧
      (SetCompact (GetCompact p.bnProofOfWorkLimit)).value ≤ p.bnProofOfWorkLimit ∧
      (∀ pblock : CBlockHeader,
        GetNextWorkRequired p [] pblock = .ok (GetCompact p.bnProofOfWorkLimit)) ∧
      (∀ (tip : CBlockIndex) (pprev : List CBlockIndex) (pblock : CBlockHeader),
        (tip.nHeight + 1) % (activeRules p tip.nHeight).nInterval ≠ 0 →
        p.fAllowMinDifficultyBlocks = true →
        pblock.GetBlockTime > tip.GetBlockTime +
          (((activeRules p tip.nHeight).nTargetTimespan * 2 % 4294967296 : Nat) : Int) →
        GetNextWorkRequired p (tip :: pprev) pblock = .ok (GetCompact p.bnProofOfWorkLimit)) ∧
      (∀ hash : Nat, CheckProofOfWork p hash (GetCompact p.bnProofOfWorkLimit) =
        decide (hash ≤ (SetCompact (GetCompact p.bnProofOfWorkLimit)).value)) ∧
      CheckProofOfWork p 0 (GetCompact p.bnProofOfWorkLimit) = true := by
  have hfacts : (p.bnProofOfWorkLimit = (uint256Mod - 1) >>> 20 ∨
        p.bnProofOfWorkLimit = (uint256Mod - 1) >>> 1) ∧
      p.fSkipProofOfWorkCheck = false ∧
      (SetCompact (GetCompact p.bnProofOfWorkLimit)).fNegative = false ∧
      (SetCompact (GetCompact p.bnProofOfWorkLimit)).fOverflow = false ∧
      (SetCompact (GetCompact p.bnProofOfWorkLimit)).value ≠ 0 ∧
      (SetCompact (GetCompact p.bnProofOfWorkLimit)).value ≤ p.bnProofOfWorkLimit := by
    rcases hp with rfl | rfl | rfl | rfl <;> decide!
  obtain ⟨hL, hSkip, hNeg, hOvf, hNz, hLe⟩ := hfacts
  have hcheck := fun hash : Nat =>
    CheckProofOfWork_of_range p hash (GetCompact p.bnProofOfWorkLimit) hSkip hNeg hOvf hNz hLe
  have hI : ∀ nHeight : Nat, (activeRules p nHeight).nInterval ≠ 0 := by
    intro nHeight
    have := (activeRules_networks_sound p hp nHeight).1
    omega
  refine ⟨hL, hNeg, hOvf, hNz, hLe, fun pblock => rfl, ?_, hcheck, ?_⟩
  · intro tip pprev pblock hOff hMin hLate
    unfold GetNextWorkRequired
    simp only [hI tip.nHeight, hOff, hMin, hLate, if_false, ne_eq, not_false_eq_true, if_true]
  · rw [hcheck 0]
    simp

/-- C27 at the regression-test network, whose ceiling is `~0 >> 1`. -/
theorem ceiling_acceptable_witness :
    CheckProofOfWork regTestParams 0 (GetCompact regTestParams.bnProofOfWorkLimit) = true :=
  (ceiling_acceptable regTestParams (Or.inr (Or.inr (Or.inl rfl)))).2.2.2.2.2.2.2.2

end Florincoin
